import Mathlib

/-!
Verification of the yoda-transpiler front end (src/Ctranspiler.c): a lexer
producing a token list terminated by an EOF sentinel, and a recursive-descent
parser/translator that turns the reversed dialect into forward-order C text.

Modelling conventions:
* C char buffers are `List Char`; the NUL terminator is modelled by treating
  `'\x00'` exactly where the C code tests for it.
* `printf` diagnostics are collected in a log (a list of printed lines,
  without the trailing newline).
* C loops whose termination depends on the token list ending in an EOF token
  are given explicit fuel; running out of fuel yields `none` (the C program
  would not terminate), which is distinct from a parse failure `some (false, _)`.
* Fixed-size C buffers (truncating `strncat`) are modelled as unbounded text.
* Out-of-range token reads (undefined behaviour in C) return the default
  token `⟨EOF, "EOF"⟩` via `List.getD`.
-/

/-- Character list of a string literal; the C sources manipulate raw char
buffers, modelled here as Lean character lists. -/
def chars (s : String) : List Char := s.data

/-- Token kinds, mirroring the C enum `TokenType`. -/
inductive TokenType where
  | KEYWORD
  | IDENTIFIER
  | NUMBER
  | LPAREN
  | RPAREN
  | LBRACE
  | RBRACE
  | EQUALS
  | SEMICOLON
  | COMMA
  | PREPROCESSOR
  | EOF
  | UNKNOWN
deriving DecidableEq, Repr

/-- A token: kind plus the matched lexeme text, mirroring the C struct `Token`. -/
structure Token where
  type : TokenType
  lexeme : List Char
deriving DecidableEq, Repr

/-- The reserved words of the dialect (C global `keywords`). -/
def keywords : List (List Char) :=
  [chars ("int"), chars ("void"), chars ("char"), chars ("for"),
   chars ("while"), chars ("if"), chars ("else"), chars ("return")]

/-- Keyword test (C `is_keyword`). -/
def is_keyword (s : List Char) : Bool := keywords.contains s

/-- C `isspace` on the default locale: space, tab, newline, vertical tab,
form feed, carriage return. -/
def cIsSpace (c : Char) : Bool :=
  c == ' ' || c == '\t' || c == '\n' || c == '\x0b' || c == '\x0c' || c == '\r'

/-- Characters allowed to continue an identifier after its first character:
`isalnum` or underscore. -/
def wordChar (c : Char) : Bool := c.isAlphanum || c == '_'

/-- Characters over which a `#`-line or a `//` comment keeps running: anything
but the newline and the NUL terminator. -/
def lineChar (c : Char) : Bool := !(c == '\n' || c == '\x00')

/-- String-literal scan after the opening quote (the `"` loop in `tokenize`):
returns the consumed characters (including the closing quote when found),
the remaining input, and whether the closing quote was found.  A backslash
followed by a non-NUL character is skipped as a two-character escape.  The
value is bundled with the bound `rest ≤ input` needed for the termination of
`scanTokens`. -/
def strScan (l : List Char) :
    { r : List Char × List Char × Bool // r.2.1.length ≤ l.length } :=
  match l with
  | [] => ⟨([], [], false), by simp⟩
  | c :: cs =>
    if c == '"' then ⟨([c], cs, true), by simp⟩
    else if c == '\x00' then ⟨([], c :: cs, false), by simp⟩
    else if c == '\\' then
      match cs with
      | [] => ⟨([c], [], false), by simp⟩
      | d :: cs' =>
        if d == '\x00' then ⟨([c], d :: cs', false), by simp⟩
        else
          let r := strScan cs'
          ⟨(c :: d :: r.val.1, r.val.2.1, r.val.2.2), by
            have h := r.property
            simp only [List.length_cons]
            omega⟩
    else
      let r := strScan cs
      ⟨(c :: r.val.1, r.val.2.1, r.val.2.2), by
        have h := r.property
        simp only [List.length_cons]
        omega⟩

/-- The main scanning loop of C `tokenize` (everything before the final EOF
sentinel is appended).  Returns the tokens and the printed tokenizer
diagnostics. -/
def scanTokens : List Char → List Token × List (List Char)
  | [] => ([], [])
  | c :: cs =>
    if c == '\x00' then ([], [])
    else if cIsSpace c then scanTokens cs
    else if c == '/' && cs.head? == some '/' then scanTokens (cs.dropWhile lineChar)
    else if c == '#' then
      let r := scanTokens (cs.dropWhile lineChar)
      (⟨.PREPROCESSOR, c :: cs.takeWhile lineChar⟩ :: r.1, r.2)
    else if (c == '>' || c == '<' || c == '!' || c == '=') && cs.head? == some '=' then
      let r := scanTokens cs.tail
      (⟨.IDENTIFIER, [c, '=']⟩ :: r.1, r.2)
    else if c == '>' || c == '<' then
      let r := scanTokens cs
      (⟨.IDENTIFIER, [c]⟩ :: r.1, r.2)
    else if c == '(' then
      let r := scanTokens cs
      (⟨.LPAREN, [c]⟩ :: r.1, r.2)
    else if c == ')' then
      let r := scanTokens cs
      (⟨.RPAREN, [c]⟩ :: r.1, r.2)
    else if c == '\x7b' then
      let r := scanTokens cs
      (⟨.LBRACE, [c]⟩ :: r.1, r.2)
    else if c == '\x7d' then
      let r := scanTokens cs
      (⟨.RBRACE, [c]⟩ :: r.1, r.2)
    else if c == '=' then
      let r := scanTokens cs
      (⟨.EQUALS, [c]⟩ :: r.1, r.2)
    else if c == ';' then
      let r := scanTokens cs
      (⟨.SEMICOLON, [c]⟩ :: r.1, r.2)
    else if c == ',' then
      let r := scanTokens cs
      (⟨.COMMA, [c]⟩ :: r.1, r.2)
    else if c.isDigit then
      let r := scanTokens (cs.dropWhile Char.isDigit)
      (⟨.NUMBER, c :: cs.takeWhile Char.isDigit⟩ :: r.1, r.2)
    else if c.isAlpha || c == '_' then
      let w := c :: cs.takeWhile wordChar
      let r := scanTokens (cs.dropWhile wordChar)
      (⟨if is_keyword w then .KEYWORD else .IDENTIFIER, w⟩ :: r.1, r.2)
    else if c == '"' then
      let sr := (strScan cs).val
      let r := scanTokens sr.2.1
      (⟨.IDENTIFIER, c :: sr.1⟩ :: r.1, r.2)
    else
      let r := scanTokens cs
      (⟨.UNKNOWN, [c]⟩ :: r.1,
        (chars ("Tokenizer Error: Unknown character \x27") ++ [c] ++ chars ("\x27")) :: r.2)
termination_by l => l.length
decreasing_by
  all_goals simp only [List.length_cons]
  all_goals first
    | exact Nat.lt_succ_of_le le_rfl
    | exact Nat.lt_succ_of_le (strScan _).property
    | exact Nat.lt_succ_of_le (List.Sublist.length_le (List.dropWhile_sublist _))
    | exact Nat.lt_succ_of_le (List.Sublist.length_le (List.tail_sublist _))

/-- The EOF sentinel token. -/
def eofToken : Token := ⟨.EOF, chars ("EOF")⟩

/-- C `tokenize`: scan the whole buffer, then append the EOF sentinel once. -/
def tokenize (source : List Char) : List Token × List (List Char) :=
  let r := scanTokens source
  (r.1 ++ [eofToken], r.2)

/-- Parser state, mirroring the C struct `Parser`: the token list, the cursor
(`current_token_pos`), the growing output text, and the list of lines the
parser printed to stdout (capacity fields of the C struct are memory-management
details with no behavioural content). -/
structure Parser where
  tokens : List Token
  pos : Nat
  output : List Char
  log : List (List Char)
deriving DecidableEq, Repr

/-- Indexed token read; out-of-range reads are undefined behaviour in the C
and are modelled by the default EOF token. -/
def tokAt (l : List Token) (i : Nat) : Token := l.getD i eofToken

/-- C `current_token`. -/
def current_token (p : Parser) : Token := tokAt p.tokens p.pos

/-- C `peek_at`: clamps an index at or past the end of the token list to the
last token.  The offset is a C `int`, hence `Int`. -/
def peek_at (p : Parser) (offset : Int) : Token :=
  if (p.tokens.length : Int) ≤ (p.pos : Int) + offset then
    tokAt p.tokens (p.tokens.length - 1)
  else
    tokAt p.tokens ((p.pos : Int) + offset).toNat

/-- C `advance`: increment the cursor unless it already sits on the final
token, and return the token before the (new) cursor. -/
def advance (p : Parser) : Token × Parser :=
  let p' := if p.pos < p.tokens.length - 1 then { p with pos := p.pos + 1 } else p
  (tokAt p'.tokens (p'.pos - 1), p')

/-- C `match` (renamed: `match` is reserved in Lean). -/
def matchTok (p : Parser) (ty : TokenType) : Bool := (current_token p).type == ty

/-- Record one line printed with `printf`. -/
def logErr (p : Parser) (msg : List Char) : Parser := { p with log := p.log ++ [msg] }

/-- C `append_output` (buffer growth is a memory detail; the text is the
content). -/
def append_output (p : Parser) (s : List Char) : Parser :=
  { p with output := p.output ++ s }

/-- C `consume`: on a kind match advance and succeed, otherwise print the
parser error naming the expectation and the offending lexeme and fail. -/
def consume (p : Parser) (ty : TokenType) (msg : List Char) : Bool × Parser :=
  if matchTok p ty then (true, (advance p).2)
  else
    (false, logErr p (chars ("Parser Error: ") ++ msg ++ chars (". Got \x27") ++
      (current_token p).lexeme ++ chars ("\x27 instead.")))

/-- C `slurp_tokens_until`: concatenate lexemes, single-space separated, up to
(but excluding) the terminator kind or EOF.  The C accumulates into a caller
buffer, modelled by the `acc` parameter (initially empty); fuelled because the
C loop would diverge on a token list that never reaches the terminator nor an
EOF-typed token. -/
def slurp_tokens_until : Nat → Parser → TokenType → List Char → Option (List Char × Parser)
  | 0, _, _, _ => none
  | fuel+1, p, endTy, acc =>
    if matchTok p endTy || matchTok p .EOF then some (acc, p)
    else
      slurp_tokens_until fuel (advance p).2 endTy
        (acc ++ (if acc = [] then [] else chars (" ")) ++ (current_token p).lexeme)

/-- The scanning loop of C `get_offset_after_paren`: walk the offset forward,
tracking the parenthesis nesting level, until the level closes or the token
list runs out.  The first argument only bounds the iteration count so that the
recursion is structural (the guard `pos + offset < count` already limits the
loop to fewer than `count` iterations, so a bound of `count` is never the
reason the loop stops). -/
def gopLoop (p : Parser) : Nat → Nat → Nat → Nat
  | 0, _, offset => offset
  | cnt+1, level, offset =>
    if 0 < level ∧ p.pos + offset < p.tokens.length then
      let t := peek_at p (offset : Int)
      let level' :=
        if t.type = .LPAREN then level + 1
        else if t.type = .RPAREN then level - 1
        else level
      gopLoop p cnt level' (offset + 1)
    else offset

/-- C `get_offset_after_paren`. -/
def get_offset_after_paren (p : Parser) : Nat :=
  if matchTok p .LPAREN then gopLoop p p.tokens.length 1 1 else 0

/-- The argument-gathering loop of C `parse_reversed_function_call`: advance
the cursor, tracking nesting, until the parenthesis opened before the call
closes (or an EOF-typed token stops the walk); fuelled for the same reason as
`slurp_tokens_until`. -/
def rfc_scan : Nat → Parser → Nat → Option Parser
  | 0, _, _ => none
  | fuel+1, p, level =>
    if 0 < level ∧ ¬(matchTok p .EOF = true) then
      let level' :=
        if matchTok p .LPAREN then level + 1
        else if matchTok p .RPAREN then level - 1
        else level
      rfc_scan fuel (if 0 < level' then (advance p).2 else p) level'
    else some p

/-- The argument-joining `for` loop of C `parse_reversed_function_call`: for
each index from `i` up to `endPos`, append the token lexeme, then append a
single space unless this is the last gathered token or the next token is a
comma (the next token is read through `peek_at` with offset `i - pos + 1`,
exactly as the C does).  The structural counter is instantiated with the exact
iteration count `endPos - i` at the call site. -/
def argsJoinAux (p : Parser) (endPos : Nat) : Nat → Nat → List Char → List Char
  | 0, _, acc => acc
  | cnt+1, i, acc =>
    if i < endPos then
      argsJoinAux p endPos cnt (i + 1)
        (acc ++ (tokAt p.tokens i).lexeme ++
          (if i < endPos - 1 ∧
              (peek_at p ((i : Int) - (p.pos : Int) + 1)).type ≠ .COMMA then
            chars (" ")
          else []))
    else acc

/-- C `parse_variable_declaration`: `<number> = <name> <type> ;` becomes
`    <type> <name> = <number>;`.  Straight-line code, no fuel needed. -/
def parse_variable_declaration (p : Parser) : Bool × Parser :=
  let a := advance p
  let value := a.1
  let c1 := consume a.2 .EQUALS (chars ("Expected \x27=\x27 after value in declaration"))
  if !c1.1 then (false, c1.2) else
  let name := current_token c1.2
  let c2 := consume c1.2 .IDENTIFIER (chars ("Expected identifier name for variable"))
  if !c2.1 then (false, c2.2) else
  let ty := current_token c2.2
  let c3 := consume c2.2 .KEYWORD (chars ("Expected type keyword for variable"))
  if !c3.1 then (false, c3.2) else
  let c4 := consume c3.2 .SEMICOLON (chars ("Expected \x27;\x27 after variable declaration"))
  if !c4.1 then (false, c4.2) else
  (true, append_output c4.2
    (chars ("    ") ++ ty.lexeme ++ chars (" ") ++ name.lexeme ++ chars (" = ") ++
      value.lexeme ++ chars (";\n")))

/-- C `parse_reversed_function_call`: `( <args> ) <name> ;` becomes
`    <name>(<args>);`. -/
def parse_reversed_function_call (fuel : Nat) (p : Parser) : Option (Bool × Parser) :=
  let c1 := consume p .LPAREN (chars ("Expected \x27(\x27 for function call"))
  if !c1.1 then some (false, c1.2) else
  let p1 := c1.2
  match rfc_scan fuel p1 1 with
  | none => none
  | some p2 =>
    let args := argsJoinAux p2 p2.pos (p2.pos - p1.pos) p1.pos []
    let c2 := consume p2 .RPAREN (chars ("Expected \x27)\x27 to end function call arguments"))
    if !c2.1 then some (false, c2.2) else
    let func_name := current_token c2.2
    let c3 := consume c2.2 .IDENTIFIER (chars ("Expected function name"))
    if !c3.1 then some (false, c3.2) else
    let c4 := consume c3.2 .SEMICOLON (chars ("Expected \x27;\x27 after function call"))
    if !c4.1 then some (false, c4.2) else
    some (true, append_output c4.2
      (chars ("    ") ++ func_name.lexeme ++ chars ("(") ++ args ++ chars (");\n")))

mutual

/-- C `parse_statement`: dispatch on the current token, with lookahead past a
leading parenthesis group to tell control structures and reversed calls
apart; otherwise pass a `KEYWORD`/`IDENTIFIER`-led statement through. -/
def parse_statement : Nat → Parser → Option (Bool × Parser)
  | 0, _ => none
  | fuel+1, p =>
    if matchTok p .NUMBER then some (parse_variable_declaration p)
    else if matchTok p .LPAREN then
      let offset := get_offset_after_paren p
      let tap := peek_at p (offset : Int)
      if tap.type = .KEYWORD ∧ tap.lexeme = chars ("for") then parse_for_loop fuel p
      else if tap.type = .KEYWORD ∧ tap.lexeme = chars ("while") then parse_while_loop fuel p
      else if tap.type = .KEYWORD ∧ tap.lexeme = chars ("if") then parse_if_statement fuel p
      else if tap.type = .IDENTIFIER ∧ (peek_at p ((offset : Int) + 1)).type = .SEMICOLON then
        parse_reversed_function_call fuel p
      else
        some (false, logErr p (chars ("Parser Error: Unrecognized statement starting with \x27") ++
          (current_token p).lexeme ++ chars ("\x27")))
    else if matchTok p .KEYWORD || matchTok p .IDENTIFIER then
      match slurp_tokens_until fuel p .SEMICOLON [] with
      | none => none
      | some (line, p1) =>
        let c := consume p1 .SEMICOLON (chars ("Expected \x27;\x27 after statement"))
        if c.1 then
          some (true, append_output c.2 (chars ("    ") ++ line ++ chars (";\n")))
        else some (false, c.2)
    else
      some (false, logErr p (chars ("Parser Error: Unrecognized statement starting with \x27") ++
        (current_token p).lexeme ++ chars ("\x27")))

/-- C `parse_for_loop`: `( <cond> ) for { <body> }` becomes
`    for (<cond>) {` … `    }`. -/
def parse_for_loop : Nat → Parser → Option (Bool × Parser)
  | 0, _ => none
  | fuel+1, p =>
    let c1 := consume p .LPAREN (chars ("Expected \x27(\x27 before for loop condition"))
    if !c1.1 then some (false, c1.2) else
    match slurp_tokens_until fuel c1.2 .RPAREN [] with
    | none => none
    | some (cond, p1) =>
      let c2 := consume p1 .RPAREN (chars ("Expected \x27)\x27 after for loop condition"))
      if !c2.1 then some (false, c2.2) else
      let c3 := consume c2.2 .KEYWORD (chars ("Expected \x27for\x27 keyword after condition"))
      if !c3.1 then some (false, c3.2) else
      let p2 := append_output c3.2 (chars ("    for (") ++ cond ++ chars (") \x7b\n"))
      let c4 := consume p2 .LBRACE (chars ("Expected \x27\x7b\x27 before for loop body"))
      if !c4.1 then some (false, c4.2) else
      match stmtLoop fuel c4.2 with
      | none => none
      | some (false, p3) => some (false, p3)
      | some (true, p3) =>
        let c5 := consume p3 .RBRACE (chars ("Expected \x27\x7d\x27 after for loop body"))
        if !c5.1 then some (false, c5.2) else
        some (true, append_output c5.2 (chars ("    \x7d\n")))

/-- C `parse_while_loop`, identical in shape to the for loop. -/
def parse_while_loop : Nat → Parser → Option (Bool × Parser)
  | 0, _ => none
  | fuel+1, p =>
    let c1 := consume p .LPAREN (chars ("Expected \x27(\x27 before while loop condition"))
    if !c1.1 then some (false, c1.2) else
    match slurp_tokens_until fuel c1.2 .RPAREN [] with
    | none => none
    | some (cond, p1) =>
      let c2 := consume p1 .RPAREN (chars ("Expected \x27)\x27 after while loop condition"))
      if !c2.1 then some (false, c2.2) else
      let c3 := consume c2.2 .KEYWORD (chars ("Expected \x27while\x27 keyword after condition"))
      if !c3.1 then some (false, c3.2) else
      let p2 := append_output c3.2 (chars ("    while (") ++ cond ++ chars (") \x7b\n"))
      let c4 := consume p2 .LBRACE (chars ("Expected \x27\x7b\x27 before while loop body"))
      if !c4.1 then some (false, c4.2) else
      match stmtLoop fuel c4.2 with
      | none => none
      | some (false, p3) => some (false, p3)
      | some (true, p3) =>
        let c5 := consume p3 .RBRACE (chars ("Expected \x27\x7d\x27 after while loop body"))
        if !c5.1 then some (false, c5.2) else
        some (true, append_output c5.2 (chars ("    \x7d\n")))

/-- C `parse_if_statement`, including the optional forward-order
`else { … }` tail. -/
def parse_if_statement : Nat → Parser → Option (Bool × Parser)
  | 0, _ => none
  | fuel+1, p =>
    let c1 := consume p .LPAREN (chars ("Expected \x27(\x27 before if condition"))
    if !c1.1 then some (false, c1.2) else
    match slurp_tokens_until fuel c1.2 .RPAREN [] with
    | none => none
    | some (cond, p1) =>
      let c2 := consume p1 .RPAREN (chars ("Expected \x27)\x27 after if condition"))
      if !c2.1 then some (false, c2.2) else
      let c3 := consume c2.2 .KEYWORD (chars ("Expected \x27if\x27 keyword after condition"))
      if !c3.1 then some (false, c3.2) else
      let p2 := append_output c3.2 (chars ("    if (") ++ cond ++ chars (") \x7b\n"))
      let c4 := consume p2 .LBRACE (chars ("Expected \x27\x7b\x27 before if body"))
      if !c4.1 then some (false, c4.2) else
      match stmtLoop fuel c4.2 with
      | none => none
      | some (false, p3) => some (false, p3)
      | some (true, p3) =>
        let c5 := consume p3 .RBRACE (chars ("Expected \x27\x7d\x27 after if body"))
        if !c5.1 then some (false, c5.2) else
        let p4 := append_output c5.2 (chars ("    \x7d\n"))
        if matchTok p4 .KEYWORD && (current_token p4).lexeme == chars ("else") then
          let p5 := append_output (advance p4).2 (chars ("    else \x7b\n"))
          let c6 := consume p5 .LBRACE (chars ("Expected \x27\x7b\x27 before else body"))
          if !c6.1 then some (false, c6.2) else
          match stmtLoop fuel c6.2 with
          | none => none
          | some (false, p6) => some (false, p6)
          | some (true, p6) =>
            let c7 := consume p6 .RBRACE (chars ("Expected \x27\x7d\x27 after else body"))
            if !c7.1 then some (false, c7.2) else
            some (true, append_output c7.2 (chars ("    \x7d\n")))
        else some (true, p4)

/-- The `while(!match(RBRACE) && !match(EOF)) parse_statement` body loop shared
by the function-definition and control-structure parsers. -/
def stmtLoop : Nat → Parser → Option (Bool × Parser)
  | 0, _ => none
  | fuel+1, p =>
    if matchTok p .RBRACE || matchTok p .EOF then some (true, p)
    else
      match parse_statement fuel p with
      | none => none
      | some (false, p') => some (false, p')
      | some (true, p') => stmtLoop fuel p'

end

/-- The reversed-parameter-list loop of C `parse_function_declaration`:
`<arg-name> <arg-type>` pairs separated by commas, emitted as
`<arg-type> <arg-name>` joined with `", "`. -/
def paramLoop : Nat → Parser → List Char → Option (Bool × List Char × Parser)
  | 0, _, _ => none
  | fuel+1, p, args =>
    if matchTok p .RPAREN || matchTok p .EOF then some (true, args, p)
    else
      let args1 := args ++ (if args = [] then [] else chars (", "))
      let arg_name := current_token p
      let c1 := consume p .IDENTIFIER (chars ("Expected argument name"))
      if !c1.1 then some (false, args1, c1.2) else
      let arg_type := current_token c1.2
      let c2 := consume c1.2 .KEYWORD (chars ("Expected argument type"))
      if !c2.1 then some (false, args1, c2.2) else
      let args2 := args1 ++ arg_type.lexeme ++ chars (" ") ++ arg_name.lexeme
      if matchTok c2.2 .COMMA then paramLoop fuel (advance c2.2).2 args2
      else if !(matchTok c2.2 .RPAREN) then
        some (false, args2,
          logErr c2.2 (chars ("Parser Error: Expected \x27,\x27 or \x27)\x27 in argument list.")))
      else paramLoop fuel c2.2 args2

/-- C `parse_function_declaration`: `( <params> ) <name> <ret> { <body> }`
becomes `<ret> <name>(<params>) {` … `}` with a trailing blank line. -/
def parse_function_declaration (fuel : Nat) (p : Parser) : Option (Bool × Parser) :=
  let c1 := consume p .LPAREN (chars ("Expected \x27(\x27 before function arguments"))
  if !c1.1 then some (false, c1.2) else
  match paramLoop fuel c1.2 [] with
  | none => none
  | some (false, _, p1) => some (false, p1)
  | some (true, args, p1) =>
    let c2 := consume p1 .RPAREN (chars ("Expected \x27)\x27 after function arguments"))
    if !c2.1 then some (false, c2.2) else
    let func_name := current_token c2.2
    let c3 := consume c2.2 .IDENTIFIER (chars ("Expected function name"))
    if !c3.1 then some (false, c3.2) else
    let return_type := current_token c3.2
    let c4 := consume c3.2 .KEYWORD (chars ("Expected function return type"))
    if !c4.1 then some (false, c4.2) else
    let p2 := append_output c4.2
      (return_type.lexeme ++ chars (" ") ++ func_name.lexeme ++ chars ("(") ++ args ++
        chars (") \x7b\n"))
    let c5 := consume p2 .LBRACE (chars ("Expected \x27\x7b\x27 before function body"))
    if !c5.1 then some (false, c5.2) else
    match stmtLoop fuel c5.2 with
    | none => none
    | some (false, p3) => some (false, p3)
    | some (true, p3) =>
      let c6 := consume p3 .RBRACE (chars ("Expected \x27\x7d\x27 after function body"))
      if !c6.1 then some (false, c6.2) else
      some (true, append_output c6.2 (chars ("\x7d\n\n")))

/-- The top-level loop of C `parse`: preprocessor lines are copied through
with a newline; a leading `(` starts a function definition; anything else is
a fatal error (`some none` models the NULL return). -/
def parseLoop : Nat → Parser → Option (Option Parser)
  | 0, _ => none
  | fuel+1, p =>
    if matchTok p .EOF then some (some p)
    else if matchTok p .PREPROCESSOR then
      parseLoop fuel (advance (append_output p ((current_token p).lexeme ++ chars ("\n")))).2
    else if matchTok p .LPAREN then
      match parse_function_declaration fuel p with
      | none => none
      | some (false, _) => some none
      | some (true, p') => parseLoop fuel p'
    else some none

/-- C `parse`: run the top-level loop from a fresh parser state; `some none`
is the NULL result (parse failure), `some (some out)` the translated text. -/
def parse (fuel : Nat) (tokens : List Token) : Option (Option (List Char)) :=
  match parseLoop fuel ⟨tokens, 0, [], []⟩ with
  | none => none
  | some none => some none
  | some (some p) => some (some p.output)

/-- Spec-side description (claim C3) of the argument join: lexemes in order,
separated by single spaces, except that no space is emitted immediately
before a COMMA token. -/
def spacedJoinSpec : List Token → List Char
  | [] => []
  | [t] => t.lexeme
  | t :: u :: r =>
    t.lexeme ++ (if u.type = .COMMA then [] else chars (" ")) ++ spacedJoinSpec (u :: r)

/-- Token run of a reversed parameter list (claim C1): `<arg-name> <arg-type>`
pairs separated by commas. -/
def paramToks : List (List Char × List Char) → List Token
  | [] => []
  | [(n, t)] => [⟨.IDENTIFIER, n⟩, ⟨.KEYWORD, t⟩]
  | (n, t) :: r => ⟨.IDENTIFIER, n⟩ :: ⟨.KEYWORD, t⟩ :: ⟨.COMMA, chars (",")⟩ :: paramToks r

/-- Spec-side description (claim C1) of the emitted parameter list:
`<arg-type> <arg-name>` joined with `", "`. -/
def joinParams : List (List Char × List Char) → List Char
  | [] => []
  | [(n, t)] => t ++ chars (" ") ++ n
  | (n, t) :: r => t ++ chars (" ") ++ n ++ chars (", ") ++ joinParams r

/-- Net parenthesis contribution of a token (for the balanced-run hypothesis
of claim C3). -/
def parenDelta (t : Token) : Int :=
  if t.type = .LPAREN then 1 else if t.type = .RPAREN then -1 else 0

/-- A balanced argument run: no prefix closes more parentheses than it opens,
and the whole run is balanced. -/
def balancedRun (run : List Token) : Prop :=
  (∀ n, 0 ≤ ((run.take n).map parenDelta).sum) ∧ ((run.map parenDelta).sum = 0)

/-- Text with no brace characters (claim C5's amended hypothesis). -/
def braceFree (s : List Char) : Prop := '\x7b' ∉ s ∧ '\x7d' ∉ s

/-- Net brace count of a piece of text. -/
def braceDelta (s : List Char) : Int :=
  (s.count '\x7b' : Int) - (s.count '\x7d' : Int)

/-- Buffers containing only whitespace and `//` line comments (claim C10). -/
inductive OnlyWsComments : List Char → Prop where
  | nil : OnlyWsComments []
  | ws : ∀ c cs, cIsSpace c = true → OnlyWsComments cs → OnlyWsComments (c :: cs)
  | comment : ∀ cs, OnlyWsComments (List.dropWhile lineChar cs) →
      OnlyWsComments ('/' :: '/' :: cs)

/-- Claim C4's join: lexemes concatenated, separated by single spaces. -/
def joinLex : List Token → List Char
  | [] => []
  | [t] => t.lexeme
  | t :: r => t.lexeme ++ ' ' :: joinLex r

/-- Identifier-shaped text: a letter or underscore followed by alphanumerics
and underscores. -/
def wordShaped : List Char → Prop
  | [] => False
  | c :: r => (c.isAlpha || c == '_') = true ∧ ∀ d ∈ r, wordChar d = true

/-- Characters the lexer turns into an UNKNOWN token: everything that matches
no other rule (`!` and `/` can land here; `>`, `<`, `=` never do). -/
def unknownChar (c : Char) : Prop :=
  cIsSpace c = false ∧ c ≠ '\x00' ∧ c ≠ '#' ∧ c ≠ '>' ∧ c ≠ '<' ∧ c ≠ '=' ∧
  c ≠ '(' ∧ c ≠ ')' ∧ c ≠ '\x7b' ∧ c ≠ '\x7d' ∧ c ≠ ';' ∧ c ≠ ',' ∧
  c.isDigit = false ∧ c.isAlpha = false ∧ c ≠ '_' ∧ c ≠ '"'

/-- A token whose lexeme re-lexes, in any position, exactly to itself: the
shapes `scanTokens` can emit anywhere in its output. -/
def goodMid (t : Token) : Prop :=
  match t.type with
  | .KEYWORD => t.lexeme ∈ keywords
  | .IDENTIFIER =>
      (wordShaped t.lexeme ∧ is_keyword t.lexeme = false) ∨
      t.lexeme ∈ [chars (">"), chars ("<"), chars (">="), chars ("<="),
        chars ("=="), chars ("!=")] ∨
      (∃ m, t.lexeme = '"' :: m ∧ (strScan m).val = (m, [], true))
  | .NUMBER => t.lexeme ≠ [] ∧ ∀ d ∈ t.lexeme, d.isDigit = true
  | .LPAREN => t.lexeme = chars ("(")
  | .RPAREN => t.lexeme = chars (")")
  | .LBRACE => t.lexeme = chars ("\x7b")
  | .RBRACE => t.lexeme = chars ("\x7d")
  | .EQUALS => t.lexeme = chars ("=")
  | .SEMICOLON => t.lexeme = chars (";")
  | .COMMA => t.lexeme = chars (",")
  | .PREPROCESSOR => True
  | .EOF => False
  | .UNKNOWN => ∃ c, t.lexeme = [c] ∧ unknownChar c

/-- A token `scanTokens` can emit in final position: additionally an
unterminated string literal (consumed to the end of the input). -/
def goodLast (t : Token) : Prop :=
  goodMid t ∨ (t.type = .IDENTIFIER ∧ ∃ m, t.lexeme = '"' :: m ∧ (strScan m).val = (m, [], false))

/-- Every token re-lexes to itself, where only the final token may be an
unterminated string literal. -/
def GoodList : List Token → Prop
  | [] => True
  | [t] => goodLast t
  | t :: r => goodMid t ∧ GoodList r

/-- Token lists whose every lexeme is brace-free (hypothesis of the amended
claim C5): the characters `\x7b`/`\x7d` can reach the output only through a
token lexeme or through the fixed strings the parser itself emits. -/
def LexFree (p : Parser) : Prop := ∀ t ∈ p.tokens, braceFree t.lexeme

/-- Output-extension invariant of the statement-level parser family: the
tokens are untouched, the output only grows, and on success the appended text
has brace balance zero whenever every lexeme is brace-free. -/
def EmitInv (p : Parser) (b : Bool) (p' : Parser) : Prop :=
  p'.tokens = p.tokens ∧ ∃ s, p'.output = p.output ++ s ∧
    (LexFree p → b = true → braceDelta s = 0)

instance (s : List Char) : Decidable (braceFree s) :=
  inferInstanceAs (Decidable (_ ∧ _))

-- primitive lemmas about parser operations

theorem matchTok_iff (p : Parser) (ty : TokenType) :
    matchTok p ty = true ↔ (current_token p).type = ty := by
  simp [matchTok]

theorem advance_fields (p : Parser) :
    (advance p).2.tokens = p.tokens ∧ (advance p).2.output = p.output ∧
    (advance p).2.log = p.log := by
  unfold advance
  split <;> simp

theorem advance_pos_of_succ_lt (p : Parser) (h : p.pos + 1 < p.tokens.length) :
    (advance p).2 = { p with pos := p.pos + 1 } := by
  unfold advance
  have : p.pos < p.tokens.length - 1 := by omega
  simp [this]

theorem advance_of_last (p : Parser) (h : ¬ p.pos + 1 < p.tokens.length) :
    (advance p).2 = p := by
  unfold advance
  have : ¬ p.pos < p.tokens.length - 1 := by omega
  simp [this]

theorem advance_pos_mono (p : Parser) : p.pos ≤ (advance p).2.pos := by
  unfold advance
  split <;> simp

theorem consume_fail (p : Parser) (ty : TokenType) (msg : List Char)
    (h : (current_token p).type ≠ ty) :
    consume p ty msg =
      (false, logErr p (chars ("Parser Error: ") ++ msg ++ chars (". Got \x27") ++
        (current_token p).lexeme ++ chars ("\x27 instead."))) := by
  unfold consume
  simp [matchTok, h]

theorem consume_succ (p : Parser) (ty : TokenType) (msg : List Char)
    (h : (current_token p).type = ty) (h2 : p.pos + 1 < p.tokens.length) :
    consume p ty msg = (true, { p with pos := p.pos + 1 }) := by
  unfold consume
  simp [matchTok, h, advance_pos_of_succ_lt p h2]

theorem consume_succ_last (p : Parser) (ty : TokenType) (msg : List Char)
    (h : (current_token p).type = ty) (h2 : ¬ p.pos + 1 < p.tokens.length) :
    consume p ty msg = (true, p) := by
  unfold consume
  simp [matchTok, h, advance_of_last p h2]

theorem consume_fields (p : Parser) (ty : TokenType) (msg : List Char) :
    (consume p ty msg).2.tokens = p.tokens ∧ (consume p ty msg).2.output = p.output := by
  unfold consume
  split
  · exact ⟨(advance_fields p).1, (advance_fields p).2.1⟩
  · simp [logErr]

-- token indexing through a shape hypothesis on the dropped suffix

theorem tokAt_drop (l : List Token) (n k : Nat) :
    tokAt (l.drop n) k = tokAt l (n + k) := by
  unfold tokAt
  simp [List.getD_eq_getElem?_getD, List.getElem?_drop]

theorem tokAt_shape (p : Parser) (L : List Token) (h : p.tokens.drop p.pos = L) (k : Nat) :
    tokAt p.tokens (p.pos + k) = tokAt L k := by
  rw [← tokAt_drop, h]

theorem shape_len (p : Parser) (L : List Token) (h : p.tokens.drop p.pos = L)
    (hne : L ≠ []) : p.pos + L.length = p.tokens.length := by
  have h1 := List.length_drop p.pos p.tokens
  rw [h] at h1
  by_cases hp : p.pos ≤ p.tokens.length
  · omega
  · exfalso
    rw [List.drop_eq_nil_of_le (by omega)] at h
    exact hne h.symm

theorem word_head_not_digit (c : Char) (h : (c.isAlpha || c == '_') = true) :
    c.isDigit = false := by
  apply Bool.eq_false_iff.mpr
  intro hd
  simp only [Char.isDigit, Bool.and_eq_true, decide_eq_true_eq] at hd
  have h1 : 48 ≤ c.val.toNat := hd.1
  have h2 : c.val.toNat ≤ 57 := hd.2
  simp only [Bool.or_eq_true, beq_iff_eq] at h
  rcases h with ha | rfl
  · simp only [Char.isAlpha, Char.isUpper, Char.isLower, Bool.or_eq_true, Bool.and_eq_true,
      decide_eq_true_eq] at ha
    rcases ha with ⟨h3, _⟩ | ⟨h3, _⟩
    · have h4 : 65 ≤ c.val.toNat := h3
      omega
    · have h4 : 97 ≤ c.val.toNat := h3
      omega
  · have h5 : ('_' : Char).val.toNat = 95 := rfl
    omega

theorem scanTokens_nil : scanTokens [] = ([], []) := by rw [scanTokens]

theorem scanTokens_nul (cs : List Char) : scanTokens ('\x00' :: cs) = ([], []) := by
  rw [scanTokens]
  simp [cIsSpace]

theorem scanTokens_ws (c : Char) (cs : List Char) (h : cIsSpace c = true) :
    scanTokens (c :: cs) = scanTokens cs := by
  simp only [cIsSpace, Bool.or_eq_true, beq_iff_eq, or_assoc] at h
  rcases h with rfl | rfl | rfl | rfl | rfl | rfl <;> (rw [scanTokens]; simp [cIsSpace])

theorem scanTokens_comment (cs : List Char) (h : cs.head? = some '/') :
    scanTokens ('/' :: cs) = scanTokens (cs.dropWhile lineChar) := by
  rw [scanTokens]
  simp [h, cIsSpace]

theorem scanTokens_pre (cs : List Char) :
    scanTokens ('#' :: cs) =
      ((⟨.PREPROCESSOR, '#' :: cs.takeWhile lineChar⟩ : Token) ::
          (scanTokens (cs.dropWhile lineChar)).1,
        (scanTokens (cs.dropWhile lineChar)).2) := by
  rw [scanTokens]
  simp [cIsSpace]

theorem scanTokens_op2 (c : Char) (cs : List Char)
    (hc : c = '>' ∨ c = '<' ∨ c = '!' ∨ c = '=') (h : cs.head? = some '=') :
    scanTokens (c :: cs) =
      ((⟨.IDENTIFIER, [c, '=']⟩ : Token) :: (scanTokens cs.tail).1, (scanTokens cs.tail).2) := by
  rcases hc with rfl | rfl | rfl | rfl <;> (rw [scanTokens]; simp [h, cIsSpace])

theorem scanTokens_gt (cs : List Char) (h : cs.head? ≠ some '=') :
    scanTokens ('>' :: cs) =
      ((⟨.IDENTIFIER, ['>']⟩ : Token) :: (scanTokens cs).1, (scanTokens cs).2) := by
  rw [scanTokens]
  simp [h, cIsSpace]

theorem scanTokens_lt (cs : List Char) (h : cs.head? ≠ some '=') :
    scanTokens ('<' :: cs) =
      ((⟨.IDENTIFIER, ['<']⟩ : Token) :: (scanTokens cs).1, (scanTokens cs).2) := by
  rw [scanTokens]
  simp [h, cIsSpace]

theorem scanTokens_lparen (cs : List Char) :
    scanTokens ('(' :: cs) =
      ((⟨.LPAREN, ['(']⟩ : Token) :: (scanTokens cs).1, (scanTokens cs).2) := by
  rw [scanTokens]
  simp [cIsSpace]

theorem scanTokens_rparen (cs : List Char) :
    scanTokens (')' :: cs) =
      ((⟨.RPAREN, [')']⟩ : Token) :: (scanTokens cs).1, (scanTokens cs).2) := by
  rw [scanTokens]
  simp [cIsSpace]

theorem scanTokens_lbrace (cs : List Char) :
    scanTokens ('\x7b' :: cs) =
      ((⟨.LBRACE, ['\x7b']⟩ : Token) :: (scanTokens cs).1, (scanTokens cs).2) := by
  rw [scanTokens]
  simp [cIsSpace]

theorem scanTokens_rbrace (cs : List Char) :
    scanTokens ('\x7d' :: cs) =
      ((⟨.RBRACE, ['\x7d']⟩ : Token) :: (scanTokens cs).1, (scanTokens cs).2) := by
  rw [scanTokens]
  simp [cIsSpace]

theorem scanTokens_eq (cs : List Char) (h : cs.head? ≠ some '=') :
    scanTokens ('=' :: cs) =
      ((⟨.EQUALS, ['=']⟩ : Token) :: (scanTokens cs).1, (scanTokens cs).2) := by
  rw [scanTokens]
  simp [h, cIsSpace]

theorem scanTokens_semi (cs : List Char) :
    scanTokens (';' :: cs) =
      ((⟨.SEMICOLON, [';']⟩ : Token) :: (scanTokens cs).1, (scanTokens cs).2) := by
  rw [scanTokens]
  simp [cIsSpace]

theorem scanTokens_comma (cs : List Char) :
    scanTokens (',' :: cs) =
      ((⟨.COMMA, [',']⟩ : Token) :: (scanTokens cs).1, (scanTokens cs).2) := by
  rw [scanTokens]
  simp [cIsSpace]

theorem scanTokens_tail_of_ne (c : Char) (cs : List Char)
    (h1 : c ≠ '\x00') (h2 : cIsSpace c = false) (h3 : c ≠ '/') (h4 : c ≠ '#')
    (h5 : c ≠ '>') (h6 : c ≠ '<') (h7 : c ≠ '!') (h8 : c ≠ '=')
    (h9 : c ≠ '(') (h10 : c ≠ ')') (h11 : c ≠ '\x7b') (h12 : c ≠ '\x7d')
    (h13 : c ≠ ';') (h14 : c ≠ ',') :
    scanTokens (c :: cs) =
      (if c.isDigit = true then
        ((⟨.NUMBER, c :: cs.takeWhile Char.isDigit⟩ : Token) ::
            (scanTokens (cs.dropWhile Char.isDigit)).1,
          (scanTokens (cs.dropWhile Char.isDigit)).2)
      else if (c.isAlpha || c == '_') = true then
        ((⟨if is_keyword (c :: cs.takeWhile wordChar) then .KEYWORD else .IDENTIFIER,
            c :: cs.takeWhile wordChar⟩ : Token) :: (scanTokens (cs.dropWhile wordChar)).1,
          (scanTokens (cs.dropWhile wordChar)).2)
      else if (c == '"') = true then
        ((⟨.IDENTIFIER, c :: (strScan cs).val.1⟩ : Token) ::
            (scanTokens (strScan cs).val.2.1).1,
          (scanTokens (strScan cs).val.2.1).2)
      else
        ((⟨.UNKNOWN, [c]⟩ : Token) :: (scanTokens cs).1,
          (chars ("Tokenizer Error: Unknown character \x27") ++ [c] ++ chars ("\x27")) ::
            (scanTokens cs).2)) := by
  rw [scanTokens]
  rw [if_neg (by simp [h1]), if_neg (by simp [h2]), if_neg (by simp [h3]),
    if_neg (by simp [h4]), if_neg (by simp [h5, h6, h7, h8]), if_neg (by simp [h5, h6]),
    if_neg (by simp [h9]), if_neg (by simp [h10]), if_neg (by simp [h11]),
    if_neg (by simp [h12]), if_neg (by simp [h8]), if_neg (by simp [h13]),
    if_neg (by simp [h14])]

theorem cIsSpace_false_of_forall (c : Char)
    (h : c ≠ ' ' ∧ c ≠ '\t' ∧ c ≠ '\n' ∧ c ≠ '\x0b' ∧ c ≠ '\x0c' ∧ c ≠ '\r') :
    cIsSpace c = false := by
  obtain ⟨a1, a2, a3, a4, a5, a6⟩ := h
  simp [cIsSpace, a1, a2, a3, a4, a5, a6]

theorem scanTokens_num (c : Char) (cs : List Char) (h : c.isDigit = true) :
    scanTokens (c :: cs) =
      ((⟨.NUMBER, c :: cs.takeWhile Char.isDigit⟩ : Token) ::
          (scanTokens (cs.dropWhile Char.isDigit)).1,
        (scanTokens (cs.dropWhile Char.isDigit)).2) := by
  rw [scanTokens_tail_of_ne c cs]
  · rw [if_pos h]
  all_goals first
    | (rintro rfl; exact absurd h (by decide))
    | (apply cIsSpace_false_of_forall
       refine ⟨?_, ?_, ?_, ?_, ?_, ?_⟩ <;> (rintro rfl; exact absurd h (by decide)))

theorem scanTokens_word (c : Char) (cs : List Char) (h : (c.isAlpha || c == '_') = true) :
    scanTokens (c :: cs) =
      ((⟨if is_keyword (c :: cs.takeWhile wordChar) then .KEYWORD else .IDENTIFIER,
          c :: cs.takeWhile wordChar⟩ : Token) :: (scanTokens (cs.dropWhile wordChar)).1,
        (scanTokens (cs.dropWhile wordChar)).2) := by
  rw [scanTokens_tail_of_ne c cs]
  · rw [if_neg (by simp [word_head_not_digit c h]), if_pos h]
  all_goals first
    | (rintro rfl; exact absurd h (by decide))
    | (apply cIsSpace_false_of_forall
       refine ⟨?_, ?_, ?_, ?_, ?_, ?_⟩ <;> (rintro rfl; exact absurd h (by decide)))

theorem scanTokens_str (cs : List Char) :
    scanTokens ('"' :: cs) =
      ((⟨.IDENTIFIER, '"' :: (strScan cs).val.1⟩ : Token) ::
          (scanTokens (strScan cs).val.2.1).1,
        (scanTokens (strScan cs).val.2.1).2) := by
  rw [scanTokens_tail_of_ne '"' cs]
  · rw [if_neg (by decide), if_neg (by decide), if_pos (by decide)]
  all_goals decide

theorem scanTokens_unknown (c : Char) (cs : List Char) (h : unknownChar c)
    (hsl : c = '/' → cs.head? ≠ some '/') (hbang : c = '!' → cs.head? ≠ some '=') :
    scanTokens (c :: cs) =
      ((⟨.UNKNOWN, [c]⟩ : Token) :: (scanTokens cs).1,
        (chars ("Tokenizer Error: Unknown character \x27") ++ [c] ++ chars ("\x27")) ::
          (scanTokens cs).2) := by
  obtain ⟨u1, u2, u3, u4, u5, u6, u7, u8, u9, u10, u11, u12, u13, u14, u15, u16⟩ := h
  rw [scanTokens]
  rw [if_neg (by simp [u2]), if_neg (by simp [u1]),
    if_neg (by
      simp only [Bool.and_eq_true, beq_iff_eq]
      rintro ⟨rfl, hh⟩
      exact hsl rfl hh),
    if_neg (by simp [u3]),
    if_neg (by
      simp only [Bool.and_eq_true, Bool.or_eq_true, beq_iff_eq, or_assoc]
      rintro ⟨rfl | rfl | rfl | rfl, hh⟩
      · exact u4 rfl
      · exact u5 rfl
      · exact hbang rfl hh
      · exact u6 rfl),
    if_neg (by simp [u4, u5]), if_neg (by simp [u7]), if_neg (by simp [u8]),
    if_neg (by simp [u9]), if_neg (by simp [u10]), if_neg (by simp [u6]),
    if_neg (by simp [u11]), if_neg (by simp [u12]), if_neg (by simp [u13]),
    if_neg (by simp [u14, u15]), if_neg (by simp [u16])]

theorem strScan_nil : (strScan []).val = ([], [], false) := by
  rw [strScan.eq_def]

theorem strScan_quote (cs : List Char) : (strScan ('"' :: cs)).val = (['"'], cs, true) := by
  rw [strScan.eq_def]
  simp

theorem strScan_nul (cs : List Char) :
    (strScan ('\x00' :: cs)).val = ([], '\x00' :: cs, false) := by
  rw [strScan.eq_def]
  simp

theorem strScan_esc_nil : (strScan ['\\']).val = (['\\'], [], false) := by
  rw [strScan.eq_def]
  simp

theorem strScan_esc_nul (cs : List Char) :
    (strScan ('\\' :: '\x00' :: cs)).val = (['\\'], '\x00' :: cs, false) := by
  rw [strScan.eq_def]
  simp

theorem strScan_esc (d : Char) (cs : List Char) (h : d ≠ '\x00') :
    (strScan ('\\' :: d :: cs)).val =
      ('\\' :: d :: (strScan cs).val.1, (strScan cs).val.2.1, (strScan cs).val.2.2) := by
  rw [strScan.eq_def]
  simp [h]

theorem strScan_other (c : Char) (cs : List Char)
    (h1 : c ≠ '"') (h2 : c ≠ '\x00') (h3 : c ≠ '\\') :
    (strScan (c :: cs)).val =
      (c :: (strScan cs).val.1, (strScan cs).val.2.1, (strScan cs).val.2.2) := by
  rw [strScan.eq_def]
  simp [h1, h2, h3]

theorem strScan_self (l : List Char) :
    (strScan (strScan l).val.1).val = ((strScan l).val.1, [], (strScan l).val.2.2) := by
  induction l using strScan.induct
  case case1 => rw [strScan_nil, strScan_nil]
  case case2 c cs h =>
    rw [beq_iff_eq] at h
    subst h
    rw [strScan_quote, strScan_quote]
  case case3 c cs h1 h2 =>
    rw [beq_iff_eq] at h2
    subst h2
    rw [strScan_nul, strScan_nil]
  case case4 c h1 h2 h3 =>
    rw [beq_iff_eq] at h3
    subst h3
    rw [strScan_esc_nil, show ['\\'] = '\\' :: [] from rfl, strScan_esc_nil]
  case case5 c h1 h2 h3 d cs hd =>
    rw [beq_iff_eq] at h3 hd
    subst h3
    subst hd
    rw [strScan_esc_nul, show ['\\'] = '\\' :: [] from rfl, strScan_esc_nil]
  case case6 c h1 h2 h3 d cs hd ih =>
    rw [beq_iff_eq] at h3
    subst h3
    rw [Bool.not_eq_true, beq_eq_false_iff_ne] at hd
    rw [strScan_esc d cs hd, strScan_esc d (strScan cs).val.1 hd, ih]
  case case7 c cs h1 h2 h3 ih =>
    rw [Bool.not_eq_true, beq_eq_false_iff_ne] at h1 h2 h3
    rw [strScan_other c cs h1 h2 h3, strScan_other c (strScan cs).val.1 h1 h2 h3, ih]

theorem strScan_append_of_closed (m : List Char) (h : (strScan m).val = (m, [], true)) :
    ∀ s, (strScan (m ++ s)).val = (m, s, true) := by
  induction m using strScan.induct
  case case1 =>
    rw [strScan_nil] at h
    simp at h
  case case2 c cs hq =>
    rw [beq_iff_eq] at hq
    subst hq
    rw [strScan_quote] at h
    obtain ⟨h1, h2, -⟩ : ['"'] = '"' :: cs ∧ cs = [] ∧ True := by
      simpa [Prod.ext_iff] using h
    subst h2
    intro s
    rw [List.cons_append, List.nil_append, strScan_quote]
  case case3 c cs h1 h2 =>
    rw [beq_iff_eq] at h2
    subst h2
    rw [strScan_nul] at h
    simp at h
  case case4 c h1 h2 h3 =>
    rw [beq_iff_eq] at h3
    subst h3
    rw [strScan_esc_nil] at h
    simp at h
  case case5 c h1 h2 h3 d cs hd =>
    rw [beq_iff_eq] at h3 hd
    subst h3
    subst hd
    rw [strScan_esc_nul] at h
    simp at h
  case case6 c h1 h2 h3 d cs hd ih =>
    rw [beq_iff_eq] at h3
    subst h3
    rw [Bool.not_eq_true, beq_eq_false_iff_ne] at hd
    intro s
    rw [strScan_esc d cs hd] at h
    obtain ⟨hx1, hx2, hx3⟩ : (strScan cs).val.1 = cs ∧ (strScan cs).val.2.1 = [] ∧
        (strScan cs).val.2.2 = true := by
      simpa [Prod.ext_iff] using h
    have ihs := ih (Prod.ext_iff.mpr ⟨hx1, Prod.ext_iff.mpr ⟨hx2, hx3⟩⟩) s
    rw [List.cons_append, List.cons_append, strScan_esc d (cs ++ s) hd, ihs]
  case case7 c cs h1 h2 h3 ih =>
    rw [Bool.not_eq_true, beq_eq_false_iff_ne] at h1 h2 h3
    intro s
    rw [strScan_other c cs h1 h2 h3] at h
    obtain ⟨hx1, hx2, hx3⟩ : (strScan cs).val.1 = cs ∧ (strScan cs).val.2.1 = [] ∧
        (strScan cs).val.2.2 = true := by
      simpa [Prod.ext_iff] using h
    have ihs := ih (Prod.ext_iff.mpr ⟨hx1, Prod.ext_iff.mpr ⟨hx2, hx3⟩⟩) s
    rw [List.cons_append, strScan_other c (cs ++ s) h1 h2 h3, ihs]

theorem strScan_rest_shape (l : List Char) (h : (strScan l).val.2.2 = false) :
    (strScan l).val.2.1 = [] ∨ ∃ r, (strScan l).val.2.1 = '\x00' :: r := by
  induction l using strScan.induct
  case case1 => rw [strScan_nil]; simp
  case case2 c cs hq =>
    rw [beq_iff_eq] at hq
    subst hq
    rw [strScan_quote] at h
    simp at h
  case case3 c cs h1 h2 =>
    rw [beq_iff_eq] at h2
    subst h2
    rw [strScan_nul]
    simp
  case case4 c h1 h2 h3 =>
    rw [beq_iff_eq] at h3
    subst h3
    rw [strScan_esc_nil]
    simp
  case case5 c h1 h2 h3 d cs hd =>
    rw [beq_iff_eq] at h3 hd
    subst h3
    subst hd
    rw [strScan_esc_nul]
    simp
  case case6 c h1 h2 h3 d cs hd ih =>
    rw [beq_iff_eq] at h3
    subst h3
    rw [Bool.not_eq_true, beq_eq_false_iff_ne] at hd
    rw [strScan_esc d cs hd] at h ⊢
    exact ih h
  case case7 c cs h1 h2 h3 ih =>
    rw [Bool.not_eq_true, beq_eq_false_iff_ne] at h1 h2 h3
    rw [strScan_other c cs h1 h2 h3] at h ⊢
    exact ih h

theorem advance_eq (p : Parser) (h : p.pos + 1 < p.tokens.length) :
    advance p = (tokAt p.tokens p.pos, { p with pos := p.pos + 1 }) := by
  unfold advance
  have h2 : p.pos < p.tokens.length - 1 := by omega
  simp [h2]

theorem consume_succ_any (p : Parser) (ty : TokenType) (msg : List Char)
    (h : (current_token p).type = ty) :
    ∃ q, consume p ty msg = (true, q) ∧ q.tokens = p.tokens ∧ q.output = p.output ∧
      q.log = p.log := by
  by_cases h2 : p.pos + 1 < p.tokens.length
  · exact ⟨_, consume_succ p ty msg h h2, rfl, rfl, rfl⟩
  · exact ⟨_, consume_succ_last p ty msg h h2, rfl, rfl, rfl⟩

theorem tokAt_last (l : List Token) (hne : l ≠ []) :
    tokAt l (l.length - 1) = l.getLast hne := by
  rw [tokAt, List.getD_eq_getElem?_getD, List.getLast_eq_getElem]
  rw [List.getElem?_eq_getElem (by
    have := List.length_pos.mpr hne
    omega)]
  simp

theorem tokAt_past (l : List Token) (i : Nat) (h : l.length ≤ i) : tokAt l i = eofToken := by
  rw [tokAt, List.getD_eq_getElem?_getD, List.getElem?_eq_none (by omega)]
  rfl

theorem unknownChar_of_neg (c : Char)
    (h1 : ¬(c == '\x00') = true) (h2 : ¬cIsSpace c = true)
    (h4 : ¬(c == '#') = true)
    (h6 : ¬(c == '>' || c == '<') = true)
    (h7 : ¬(c == '(') = true) (h8 : ¬(c == ')') = true)
    (h9 : ¬(c == '\x7b') = true) (h10 : ¬(c == '\x7d') = true)
    (h11 : ¬(c == '=') = true) (h12 : ¬(c == ';') = true) (h13 : ¬(c == ',') = true)
    (h14 : ¬c.isDigit = true) (h15 : ¬(c.isAlpha || c == '_') = true)
    (h16 : ¬(c == '"') = true) : unknownChar c := by
  simp only [Bool.not_eq_true, beq_eq_false_iff_ne, ne_eq, Bool.or_eq_false_iff] at h1 h2 h4 h6 h7 h8 h9 h10 h11 h12 h13 h14 h15 h16
  exact ⟨h2, h1, h4, h6.1, h6.2, h11, h7, h8, h9, h10, h12, h13, h14, h15.1, h15.2, h16⟩

theorem no_eof_cons {tk : Token} {rest : List Token} (h1 : tk.type ≠ TokenType.EOF)
    (h2 : ∀ t ∈ rest, t.type ≠ TokenType.EOF) :
    ∀ t ∈ tk :: rest, t.type ≠ TokenType.EOF := by
  intro t ht
  rcases List.mem_cons.mp ht with rfl | hm
  · exact h1
  · exact h2 t hm

theorem scan_no_eof (cs : List Char) : ∀ t ∈ (scanTokens cs).1, t.type ≠ TokenType.EOF := by
  induction cs using scanTokens.induct
  case case1 =>
    rw [scanTokens_nil]
    simp
  case case2 c cs h =>
    rw [beq_iff_eq] at h
    subst h
    rw [scanTokens_nul]
    simp
  case case3 c cs h1 h2 ih =>
    rw [scanTokens_ws c cs h2]
    exact ih
  case case4 c cs h1 h2 h3 ih =>
    rw [Bool.and_eq_true] at h3
    obtain ⟨hd, hh⟩ := h3
    rw [beq_iff_eq] at hd hh
    subst hd
    rw [scanTokens_comment cs hh]
    exact ih
  case case5 c cs h1 h2 h3 h4 ih =>
    rw [beq_iff_eq] at h4
    subst h4
    rw [scanTokens_pre]
    exact no_eof_cons (by simp) ih
  case case6 c cs h1 h2 h3 h4 h5 ih =>
    rw [Bool.and_eq_true] at h5
    obtain ⟨hd, hh⟩ := h5
    simp only [Bool.or_eq_true, beq_iff_eq, or_assoc] at hd
    rw [beq_iff_eq] at hh
    rw [scanTokens_op2 c cs hd hh]
    exact no_eof_cons (by simp) ih
  case case7 c cs h1 h2 h3 h4 h5 h6 ih =>
    have hne : cs.head? ≠ some '=' := by
      intro heq
      exact h5 (by simp [heq, h6])
    simp only [Bool.or_eq_true, beq_iff_eq] at h6
    rcases h6 with rfl | rfl
    · rw [scanTokens_gt cs hne]
      exact no_eof_cons (by simp) ih
    · rw [scanTokens_lt cs hne]
      exact no_eof_cons (by simp) ih
  case case8 c cs h1 h2 h3 h4 h5 h6 h7 ih =>
    rw [beq_iff_eq] at h7
    subst h7
    rw [scanTokens_lparen]
    exact no_eof_cons (by simp) ih
  case case9 c cs h1 h2 h3 h4 h5 h6 h7 h8 ih =>
    rw [beq_iff_eq] at h8
    subst h8
    rw [scanTokens_rparen]
    exact no_eof_cons (by simp) ih
  case case10 c cs h1 h2 h3 h4 h5 h6 h7 h8 h9 ih =>
    rw [beq_iff_eq] at h9
    subst h9
    rw [scanTokens_lbrace]
    exact no_eof_cons (by simp) ih
  case case11 c cs h1 h2 h3 h4 h5 h6 h7 h8 h9 h10 ih =>
    rw [beq_iff_eq] at h10
    subst h10
    rw [scanTokens_rbrace]
    exact no_eof_cons (by simp) ih
  case case12 c cs h1 h2 h3 h4 h5 h6 h7 h8 h9 h10 h11 ih =>
    rw [beq_iff_eq] at h11
    subst h11
    have hne : cs.head? ≠ some '=' := by
      intro heq
      exact h5 (by simp [heq])
    rw [scanTokens_eq cs hne]
    exact no_eof_cons (by simp) ih
  case case13 c cs h1 h2 h3 h4 h5 h6 h7 h8 h9 h10 h11 h12 ih =>
    rw [beq_iff_eq] at h12
    subst h12
    rw [scanTokens_semi]
    exact no_eof_cons (by simp) ih
  case case14 c cs h1 h2 h3 h4 h5 h6 h7 h8 h9 h10 h11 h12 h13 ih =>
    rw [beq_iff_eq] at h13
    subst h13
    rw [scanTokens_comma]
    exact no_eof_cons (by simp) ih
  case case15 c cs h1 h2 h3 h4 h5 h6 h7 h8 h9 h10 h11 h12 h13 h14 ih =>
    rw [scanTokens_num c cs h14]
    exact no_eof_cons (by simp) ih
  case case16 c cs h1 h2 h3 h4 h5 h6 h7 h8 h9 h10 h11 h12 h13 h14 h15 ih =>
    rw [scanTokens_word c cs h15]
    refine no_eof_cons ?_ ih
    dsimp only
    split <;> simp
  case case17 c cs h1 h2 h3 h4 h5 h6 h7 h8 h9 h10 h11 h12 h13 h14 h15 hq sr ih =>
    rw [beq_iff_eq] at hq
    subst hq
    rw [scanTokens_str]
    exact no_eof_cons (by simp) ih
  case case18 c cs h1 h2 h3 h4 h5 h6 h7 h8 h9 h10 h11 h12 h13 h14 h15 h16 ih =>
    rw [scanTokens_unknown c cs
      (unknownChar_of_neg c h1 h2 h4 h6 h7 h8 h9 h10 h11 h12 h13 h14 h15 h16)
      (by
        intro hc heq
        subst hc
        exact h3 (by simp [heq]))
      (by
        intro hc heq
        subst hc
        exact h5 (by simp [heq]))]
    exact no_eof_cons (by simp) ih

-- C7


/-- Claim C7: for every input buffer the token list ends with exactly one EOF
token (lexeme `EOF`), and EOF occurs nowhere else. -/
theorem tokenize_eof_sentinel (cs : List Char) :
    (tokenize cs).1.getLast? = some eofToken ∧
    (tokenize cs).1.filter (fun t => t.type == TokenType.EOF) = [eofToken] := by
  have hno : ∀ t ∈ (scanTokens cs).1, t.type ≠ TokenType.EOF := scan_no_eof cs
  constructor
  · simp [tokenize]
  · rw [show (tokenize cs).1 = (scanTokens cs).1 ++ [eofToken] from rfl]
    rw [List.filter_append]
    rw [List.filter_eq_nil_iff.mpr (by
      intro t ht
      simp [hno t ht])]
    rfl

-- C8

/-- Claim C8: with a non-empty token list ending in the EOF sentinel,
`peek_at` returns the token at `cursor + offset` when that index is within
the token count, and the last (EOF) token whenever the index is at or past
the count. -/
theorem peek_at_contract (p : Parser) (offset : Int) (hne : p.tokens ≠ [])
    (hlast : (p.tokens.getLast hne).type = TokenType.EOF)
    (hpos : 0 ≤ (p.pos : Int) + offset) :
    ((p.pos : Int) + offset < (p.tokens.length : Int) →
      p.tokens[((p.pos : Int) + offset).toNat]? = some (peek_at p offset)) ∧
    ((p.tokens.length : Int) ≤ (p.pos : Int) + offset →
      peek_at p offset = p.tokens.getLast hne ∧
      (peek_at p offset).type = TokenType.EOF) := by
  unfold peek_at
  constructor
  · intro hlt
    rw [if_neg (by omega)]
    have hidx : ((p.pos : Int) + offset).toNat < p.tokens.length := by omega
    rw [tokAt, List.getD_eq_getElem?_getD, List.getElem?_eq_getElem hidx]
    simp
  · intro hge
    rw [if_pos (by omega)]
    have he : tokAt p.tokens (p.tokens.length - 1) = p.tokens.getLast hne :=
      tokAt_last p.tokens hne
    exact ⟨he, he ▸ hlast⟩

theorem peek_at_contract_witness :
    peek_at ⟨[⟨.LPAREN, chars ("(")⟩, eofToken], 0, [], []⟩ 5 = eofToken ∧
    peek_at ⟨[⟨.LPAREN, chars ("(")⟩, eofToken], 0, [], []⟩ 1 = eofToken := by
  have h5 := (peek_at_contract ⟨[⟨.LPAREN, chars ("(")⟩, eofToken], 0, [], []⟩ 5
    (by simp) (by decide) (by decide)).2 (by decide)
  have h1 := (peek_at_contract ⟨[⟨.LPAREN, chars ("(")⟩, eofToken], 0, [], []⟩ 1
    (by simp) (by decide) (by decide)).1 (by decide)
  refine ⟨h5.1.trans (by decide), ?_⟩
  have : some (⟨[⟨.LPAREN, chars ("(")⟩, eofToken], 0, [], []⟩ : Parser).tokens[(((0:Nat) : Int) + 1).toNat]? = some (some eofToken) := by decide
  exact (Option.some.injEq .. ▸ (h1.symm.trans (by decide) : _)).symm

-- C6

/-- Claim C6 (amended): on a token list ending in the EOF sentinel and for a
requested kind other than EOF, `consume` either succeeds and advances the
cursor by exactly one, or the current kind differs, the parser error naming
the expectation and the offending lexeme is printed, and it fails with the
cursor unchanged; the cursor never decreases across `consume` or `advance`. -/
theorem consume_contract (p : Parser) (ty : TokenType) (msg : List Char)
    (hne : p.tokens ≠ []) (hlast : (p.tokens.getLast hne).type = TokenType.EOF)
    (hty : ty ≠ TokenType.EOF) :
    ((consume p ty msg).1 = true →
      (consume p ty msg).2 = { p with pos := p.pos + 1 }) ∧
    ((consume p ty msg).1 = false →
      (current_token p).type ≠ ty ∧
      (consume p ty msg).2 = logErr p (chars ("Parser Error: ") ++ msg ++
        chars (". Got \x27") ++ (current_token p).lexeme ++ chars ("\x27 instead.")) ∧
      (consume p ty msg).2.pos = p.pos) ∧
    p.pos ≤ (consume p ty msg).2.pos ∧ p.pos ≤ (advance p).2.pos := by
  by_cases hm : (current_token p).type = ty
  · have hlt : p.pos + 1 < p.tokens.length := by
      by_contra hnl
      by_cases hp : p.pos < p.tokens.length
      · have : p.pos = p.tokens.length - 1 := by omega
        rw [current_token, this, tokAt_last p.tokens hne] at hm
        exact hty (hm ▸ hlast)
      · rw [current_token, tokAt_past p.tokens p.pos (by omega)] at hm
        exact hty (hm ▸ rfl)
    rw [consume_succ p ty msg hm hlt]
    refine ⟨fun _ => rfl, fun hf => by simp at hf, by simp, advance_pos_mono p⟩
  · rw [consume_fail p ty msg hm]
    exact ⟨fun ht => by simp at ht, fun _ => ⟨hm, rfl, rfl⟩, by simp [logErr],
      advance_pos_mono p⟩

theorem consume_contract_witness :
    consume ⟨[⟨.SEMICOLON, chars (";")⟩, eofToken], 0, [], []⟩ .SEMICOLON [] =
      (true, ⟨[⟨.SEMICOLON, chars (";")⟩, eofToken], 1, [], []⟩) := by
  have h := (consume_contract ⟨[⟨.SEMICOLON, chars (";")⟩, eofToken], 0, [], []⟩
    .SEMICOLON [] (by simp) (by decide) (by decide)).1
  have ht : (consume ⟨[⟨.SEMICOLON, chars (";")⟩, eofToken], 0, [], []⟩ .SEMICOLON []).1 =
      true := by decide
  rw [Prod.ext_iff]
  exact ⟨ht, by rw [h ht]⟩

/-- Counterexample to claim C6 as stated: at a parser state whose token list
does not end in the EOF sentinel (here a single SEMICOLON token), a
successful `consume` does not advance the cursor at all. -/
theorem consume_claim_cex :
    ¬ ((consume ⟨[⟨.SEMICOLON, chars (";")⟩], 0, [], []⟩ .SEMICOLON []).1 = true →
      (consume ⟨[⟨.SEMICOLON, chars (";")⟩], 0, [], []⟩ .SEMICOLON []).2.pos = 0 + 1) := by
  decide

-- C9

/-- Claim C9: at a position starting with one of `>`, `<`, `=`, `!`: with a
following `=` the two characters are one IDENTIFIER token; otherwise a bare
`>`/`<` is a one-character IDENTIFIER, a bare `=` an EQUALS token, and a bare
`!` a one-character UNKNOWN token with a diagnostic printed. -/
theorem operator_cluster_contract (c : Char) (cs : List Char)
    (hc : c = '>' ∨ c = '<' ∨ c = '=' ∨ c = '!') :
    (cs.head? = some '=' →
      (scanTokens (c :: cs)).1 = ⟨.IDENTIFIER, [c, '=']⟩ :: (scanTokens cs.tail).1) ∧
    (cs.head? ≠ some '=' → (c = '>' ∨ c = '<') →
      (scanTokens (c :: cs)).1 = ⟨.IDENTIFIER, [c]⟩ :: (scanTokens cs).1) ∧
    (cs.head? ≠ some '=' → c = '=' →
      (scanTokens (c :: cs)).1 = ⟨.EQUALS, [c]⟩ :: (scanTokens cs).1) ∧
    (cs.head? ≠ some '=' → c = '!' →
      (scanTokens (c :: cs)).1 = ⟨.UNKNOWN, [c]⟩ :: (scanTokens cs).1 ∧
      (scanTokens (c :: cs)).2 =
        chars ("Tokenizer Error: Unknown character \x27!\x27") :: (scanTokens cs).2) := by
  refine ⟨?_, ?_, ?_, ?_⟩
  · intro h
    rw [scanTokens_op2 c cs (by tauto) h]
  · intro h hcc
    rcases hcc with rfl | rfl
    · rw [scanTokens_gt cs h]
    · rw [scanTokens_lt cs h]
  · intro h hcc
    subst hcc
    rw [scanTokens_eq cs h]
  · intro h hcc
    subst hcc
    rw [scanTokens_unknown '!' cs (by unfold unknownChar; decide)
      (fun hh => absurd hh (by decide)) (fun _ => h)]
    exact ⟨rfl, rfl⟩

theorem operator_cluster_contract_witness :
    (scanTokens (chars (">= ! ="))).1 =
      [⟨.IDENTIFIER, chars (">=")⟩, ⟨.UNKNOWN, chars ("!")⟩, ⟨.EQUALS, chars ("=")⟩] := by
  have s1 := (operator_cluster_contract '>' ['=', ' ', '!', ' ', '='] (by tauto)).1 rfl
  have s2 := ((operator_cluster_contract '!' [' ', '='] (by tauto)).2.2.2 (by decide)
    rfl).1
  have s3 := (operator_cluster_contract '=' [] (by tauto)).2.2.1 (by decide) rfl
  show (scanTokens ('>' :: ['=', ' ', '!', ' ', '='])).1 = _
  rw [s1]
  simp only [List.tail_cons]
  rw [scanTokens_ws ' ' ('!' :: [' ', '=']) (by decide), s2,
    scanTokens_ws ' ' ('=' :: []) (by decide), s3, scanTokens_nil]
  rfl

-- C10

theorem scan_only_ws (cs : List Char) (h : OnlyWsComments cs) : scanTokens cs = ([], []) := by
  induction h with
  | nil => exact scanTokens_nil
  | ws c cs hc hrec ih => rw [scanTokens_ws c cs hc]; exact ih
  | comment cs hrec ih =>
    rw [scanTokens_comment ('/' :: cs) (by rfl)]
    rw [List.dropWhile_cons_of_pos (by decide)]
    exact ih

/-- Claim C10: a source containing only whitespace and `//` comments lexes to
just the EOF sentinel, and the top-level parse succeeds with empty output. -/
theorem empty_source_parses (cs : List Char) (h : OnlyWsComments cs) (fuel : Nat)
    (hf : 1 ≤ fuel) :
    (tokenize cs).1 = [eofToken] ∧ parse fuel (tokenize cs).1 = some (some []) := by
  have hscan := scan_only_ws cs h
  have ht : (tokenize cs).1 = [eofToken] := by
    rw [show (tokenize cs).1 = (scanTokens cs).1 ++ [eofToken] from rfl, hscan]
    rfl
  refine ⟨ht, ?_⟩
  rw [ht]
  obtain ⟨f, rfl⟩ : ∃ f, fuel = f + 1 := ⟨fuel - 1, by omega⟩
  rw [parse, parseLoop]
  simp [matchTok, current_token, tokAt, eofToken]

theorem empty_source_parses_witness :
    (tokenize (chars ("  // c"))).1 = [eofToken] ∧
    parse 1 (tokenize (chars ("  // c"))).1 = some (some []) := by
  refine empty_source_parses (chars ("  // c")) ?_ 1 le_rfl
  refine OnlyWsComments.ws ' ' _ (by decide) ?_
  refine OnlyWsComments.ws ' ' _ (by decide) ?_
  show OnlyWsComments ('/' :: '/' :: chars (" c"))
  refine OnlyWsComments.comment _ ?_
  show OnlyWsComments []
  exact OnlyWsComments.nil

-- C2

/-- Claim C2: a body statement `<number> = <name> <type> ;` parses
successfully and appends exactly `    <type> <name> = <number>;` and a
newline to the output. -/
theorem variable_declaration_translation (p : Parser) (v x t : List Char)
    (rest : List Token)
    (hs : p.tokens.drop p.pos = ⟨.NUMBER, v⟩ :: ⟨.EQUALS, chars ("=")⟩ ::
      ⟨.IDENTIFIER, x⟩ :: ⟨.KEYWORD, t⟩ :: ⟨.SEMICOLON, chars (";")⟩ :: rest) :
    (parse_variable_declaration p).1 = true ∧
    (parse_variable_declaration p).2.output =
      p.output ++ chars ("    ") ++ t ++ chars (" ") ++ x ++ chars (" = ") ++ v ++
        chars (";\n") ∧
    (parse_variable_declaration p).2.tokens = p.tokens ∧
    (parse_variable_declaration p).2.log = p.log := by
  have hlen : p.pos + (5 + rest.length) = p.tokens.length := by
    have h0 := shape_len p _ hs (by simp)
    simp only [List.length_cons] at h0
    omega
  have e0 : tokAt p.tokens (p.pos + 0) = ⟨.NUMBER, v⟩ := by
    rw [tokAt_shape p _ hs 0]
    simp [tokAt]
  have e1 : tokAt p.tokens (p.pos + 1) = ⟨.EQUALS, chars ("=")⟩ := by
    rw [tokAt_shape p _ hs 1]
    simp [tokAt]
  have e2 : tokAt p.tokens (p.pos + 2) = ⟨.IDENTIFIER, x⟩ := by
    rw [tokAt_shape p _ hs 2]
    simp [tokAt]
  have e3 : tokAt p.tokens (p.pos + 3) = ⟨.KEYWORD, t⟩ := by
    rw [tokAt_shape p _ hs 3]
    simp [tokAt]
  have e4 : tokAt p.tokens (p.pos + 4) = ⟨.SEMICOLON, chars (";")⟩ := by
    rw [tokAt_shape p _ hs 4]
    simp [tokAt]
  rw [parse_variable_declaration]
  rw [advance_eq p (by omega)]
  dsimp only
  rw [consume_succ _ .EQUALS _ (by
      show (tokAt p.tokens (p.pos + 1)).type = _
      rw [e1]) (by dsimp only; omega)]
  dsimp only
  rw [consume_succ _ .IDENTIFIER _ (by
      show (tokAt p.tokens (p.pos + 1 + 1)).type = _
      rw [show p.pos + 1 + 1 = p.pos + 2 from rfl, e2]) (by dsimp only; omega)]
  dsimp only
  rw [consume_succ _ .KEYWORD _ (by
      show (tokAt p.tokens (p.pos + 1 + 1 + 1)).type = _
      rw [show p.pos + 1 + 1 + 1 = p.pos + 3 from rfl, e3]) (by dsimp only; omega)]
  dsimp only
  obtain ⟨q, hq, hqt, hqo, hql⟩ := consume_succ_any
    { p with pos := p.pos + 1 + 1 + 1 + 1 } .SEMICOLON
    (chars ("Expected \x27;\x27 after variable declaration")) (by
      show (tokAt p.tokens (p.pos + 1 + 1 + 1 + 1)).type = _
      rw [show p.pos + 1 + 1 + 1 + 1 = p.pos + 4 from rfl, e4])
  rw [hq]
  dsimp only [append_output]
  have f0 : tokAt p.tokens p.pos = (⟨.NUMBER, v⟩ : Token) := by
    rw [show tokAt p.tokens p.pos = tokAt p.tokens (p.pos + 0) from rfl, e0]
  have f2 : current_token
      { tokens := p.tokens, pos := p.pos + 1 + 1, output := p.output, log := p.log } =
      (⟨.IDENTIFIER, x⟩ : Token) := by
    show tokAt p.tokens (p.pos + 1 + 1) = _
    rw [show p.pos + 1 + 1 = p.pos + 2 from rfl, e2]
  have f3 : current_token
      { tokens := p.tokens, pos := p.pos + 1 + 1 + 1, output := p.output, log := p.log } =
      (⟨.KEYWORD, t⟩ : Token) := by
    show tokAt p.tokens (p.pos + 1 + 1 + 1) = _
    rw [show p.pos + 1 + 1 + 1 = p.pos + 3 from rfl, e3]
  rw [f0, f2, f3, hqo]
  refine ⟨rfl, ?_, hqt, hql⟩
  dsimp only
  simp [List.append_assoc]

theorem variable_declaration_translation_witness :
    (parse_variable_declaration ⟨[⟨.NUMBER, chars ("42")⟩, ⟨.EQUALS, chars ("=")⟩,
      ⟨.IDENTIFIER, chars ("x")⟩, ⟨.KEYWORD, chars ("int")⟩,
      ⟨.SEMICOLON, chars (";")⟩, eofToken], 0, [], []⟩).1 = true ∧
    (parse_variable_declaration ⟨[⟨.NUMBER, chars ("42")⟩, ⟨.EQUALS, chars ("=")⟩,
      ⟨.IDENTIFIER, chars ("x")⟩, ⟨.KEYWORD, chars ("int")⟩,
      ⟨.SEMICOLON, chars (";")⟩, eofToken], 0, [], []⟩).2.output =
      chars ("    int x = 42;\n") := by
  have h := variable_declaration_translation ⟨[⟨.NUMBER, chars ("42")⟩,
    ⟨.EQUALS, chars ("=")⟩, ⟨.IDENTIFIER, chars ("x")⟩, ⟨.KEYWORD, chars ("int")⟩,
    ⟨.SEMICOLON, chars (";")⟩, eofToken], 0, [], []⟩ (chars ("42")) (chars ("x"))
    (chars ("int")) [eofToken] rfl
  exact ⟨h.1, h.2.1.trans (by decide)⟩

-- infrastructure for the parser-family invariant

theorem braceFree_nil : braceFree [] := by constructor <;> simp

theorem braceFree_append {a b : List Char} (ha : braceFree a) (hb : braceFree b) :
    braceFree (a ++ b) := by
  obtain ⟨a1, a2⟩ := ha
  obtain ⟨b1, b2⟩ := hb
  constructor <;> simp_all

theorem braceDelta_append (a b : List Char) :
    braceDelta (a ++ b) = braceDelta a + braceDelta b := by
  simp only [braceDelta, List.count_append]
  push_cast
  ring

theorem braceDelta_of_braceFree {s : List Char} (h : braceFree s) : braceDelta s = 0 := by
  obtain ⟨h1, h2⟩ := h
  simp [braceDelta, List.count_eq_zero_of_not_mem, h1, h2]

theorem braceFree_tokAt (l : List Token) (hl : ∀ t ∈ l, braceFree t.lexeme) (i : Nat) :
    braceFree (tokAt l i).lexeme := by
  by_cases h : i < l.length
  · rw [tokAt, List.getD_eq_getElem?_getD, List.getElem?_eq_getElem h]
    exact hl _ (List.getElem_mem h)
  · rw [tokAt_past l i (by omega)]
    constructor <;> decide

theorem lexFree_transport {p q : Parser} (h : q.tokens = p.tokens) (hp : LexFree p) :
    LexFree q := by
  intro t ht
  exact hp t (h ▸ ht)

theorem emitInv_of_false {p q : Parser} (ht : q.tokens = p.tokens)
    (ho : q.output = p.output) : EmitInv p false q :=
  ⟨ht, [], by simp [ho], fun _ hb => by cases hb⟩

theorem emitInv_comp {p q r : Parser} {b : Bool} (h1 : EmitInv p true q)
    (h2 : EmitInv q b r) : EmitInv p b r := by
  obtain ⟨ht1, s1, ho1, hd1⟩ := h1
  obtain ⟨ht2, s2, ho2, hd2⟩ := h2
  refine ⟨ht2.trans ht1, s1 ++ s2, by rw [ho2, ho1, List.append_assoc], ?_⟩
  intro hf hb
  rw [braceDelta_append, hd1 hf rfl, hd2 (lexFree_transport ht1 hf) hb]
  simp

-- state-preservation facts for the leaf operations

theorem consume_inv (p : Parser) (ty : TokenType) (msg : List Char) :
    (consume p ty msg).2.tokens = p.tokens ∧ (consume p ty msg).2.output = p.output :=
  consume_fields p ty msg

theorem slurp_inv (fuel : Nat) (endTy : TokenType) :
    ∀ p acc s q, slurp_tokens_until fuel p endTy acc = some (s, q) →
      q.tokens = p.tokens ∧ q.output = p.output ∧ q.log = p.log ∧
      (LexFree p → braceFree acc → braceFree s) := by
  induction fuel with
  | zero => intro p acc s q h; simp [slurp_tokens_until] at h
  | succ fuel ih =>
    intro p acc s q h
    rw [slurp_tokens_until] at h
    split at h
    · obtain ⟨rfl, rfl⟩ : acc = s ∧ p = q := by
        constructor <;> (cases h; rfl)
      exact ⟨rfl, rfl, rfl, fun _ hb => hb⟩
    · have hstep := ih (advance p).2 _ s q h
      obtain ⟨ht, ho, hl, hbf⟩ := hstep
      have hadv := advance_fields p
      refine ⟨ht.trans hadv.1, ho.trans hadv.2.1, hl.trans hadv.2.2, ?_⟩
      intro hf hacc
      refine hbf (lexFree_transport hadv.1 hf) ?_
      refine braceFree_append (braceFree_append hacc ?_) ?_
      · split <;> first | exact braceFree_nil | (constructor <;> decide)
      · exact braceFree_tokAt p.tokens hf p.pos

theorem rfc_scan_inv (fuel : Nat) :
    ∀ p level q, rfc_scan fuel p level = some q →
      q.tokens = p.tokens ∧ q.output = p.output ∧ q.log = p.log := by
  induction fuel with
  | zero => intro p level q h; simp [rfc_scan] at h
  | succ fuel ih =>
    intro p level q h
    rw [rfc_scan] at h
    split at h
    · have hstep := ih _ _ q h
      obtain ⟨ht, ho, hl⟩ := hstep
      have hp0 : ∀ lv, ((if 0 < lv then (advance p).2 else p).tokens = p.tokens ∧
          (if 0 < lv then (advance p).2 else p).output = p.output ∧
          (if 0 < lv then (advance p).2 else p).log = p.log) := by
        intro lv
        by_cases hl0 : 0 < lv
        · rw [if_pos hl0]
          exact advance_fields p
        · rw [if_neg hl0]
          exact ⟨rfl, rfl, rfl⟩
      obtain ⟨g1, g2, g3⟩ := hp0 (if matchTok p TokenType.LPAREN = true then level + 1
        else if matchTok p TokenType.RPAREN = true then level - 1 else level)
      exact ⟨ht.trans g1, ho.trans g2, hl.trans g3⟩
    · simp only [Option.some.injEq] at h
      subst h
      exact ⟨rfl, rfl, rfl⟩

theorem argsJoin_braceFree (p : Parser) (endPos : Nat) (hf : LexFree p) :
    ∀ cnt i acc, braceFree acc → braceFree (argsJoinAux p endPos cnt i acc) := by
  intro cnt
  induction cnt with
  | zero => intro i acc hacc; exact hacc
  | succ cnt ih =>
    intro i acc hacc
    rw [argsJoinAux]
    split
    · refine ih _ _ ?_
      refine braceFree_append (braceFree_append hacc ?_) ?_
      · exact braceFree_tokAt p.tokens hf i
      · split <;> first | (constructor <;> decide) | exact braceFree_nil
    · exact hacc


theorem emitInv_of_false_ext {p q : Parser} (ht : q.tokens = p.tokens)
    (s : List Char) (ho : q.output = p.output ++ s) : EmitInv p false q :=
  ⟨ht, s, ho, fun _ hb => by cases hb⟩

theorem emitInv_append (p X : Parser) (s : List Char) (htok : X.tokens = p.tokens)
    (s0 : List Char) (hout : X.output = p.output ++ s0)
    (hdelta : LexFree p → braceDelta s0 + braceDelta s = 0) :
    EmitInv p true (append_output X s) := by
  refine ⟨htok, s0 ++ s, ?_, ?_⟩
  · show X.output ++ s = _
    rw [hout, List.append_assoc]
  · intro hf _
    rw [braceDelta_append]
    exact hdelta hf

theorem braceFree_current (q : Parser) (p : Parser) (ht : q.tokens = p.tokens)
    (hf : LexFree p) : braceFree (current_token q).lexeme := by
  rw [current_token]
  exact braceFree_tokAt q.tokens (fun t htm => hf t (ht ▸ htm)) q.pos

theorem braceFree_advance_fst (p : Parser) (hf : LexFree p) :
    braceFree (advance p).1.lexeme := by
  rw [advance]
  dsimp only
  split
  · exact braceFree_tokAt _ (fun t ht => hf t ht) _
  · exact braceFree_tokAt _ (fun t ht => hf t ht) _

theorem append_output_tokens (p : Parser) (s : List Char) :
    (append_output p s).tokens = p.tokens := rfl

theorem append_output_output (p : Parser) (s : List Char) :
    (append_output p s).output = p.output ++ s := rfl

theorem logErr_fields (p : Parser) (m : List Char) :
    (logErr p m).tokens = p.tokens ∧ (logErr p m).output = p.output := ⟨rfl, rfl⟩

theorem emitInv_refl (p : Parser) : EmitInv p true p :=
  ⟨rfl, [], by simp, fun _ _ => by decide⟩

theorem pvd_inv (p : Parser) :
    ∀ b p', parse_variable_declaration p = (b, p') → EmitInv p b p' := by
  intro b p' h
  rw [parse_variable_declaration] at h
  dsimp only at h
  have t1 : (advance p).2.tokens = p.tokens ∧ (advance p).2.output = p.output :=
    ⟨(advance_fields p).1, (advance_fields p).2.1⟩
  split at h
  · rw [Prod.mk.injEq] at h
    obtain ⟨hb, hp⟩ := h
    subst hb
    subst hp
    exact emitInv_of_false ((consume_fields _ _ _).1.trans t1.1)
      ((consume_fields _ _ _).2.trans t1.2)
  split at h
  · rw [Prod.mk.injEq] at h
    obtain ⟨hb, hp⟩ := h
    subst hb
    subst hp
    exact emitInv_of_false
      ((consume_fields _ _ _).1.trans ((consume_fields _ _ _).1.trans t1.1))
      ((consume_fields _ _ _).2.trans ((consume_fields _ _ _).2.trans t1.2))
  split at h
  · rw [Prod.mk.injEq] at h
    obtain ⟨hb, hp⟩ := h
    subst hb
    subst hp
    exact emitInv_of_false
      ((consume_fields _ _ _).1.trans ((consume_fields _ _ _).1.trans
        ((consume_fields _ _ _).1.trans t1.1)))
      ((consume_fields _ _ _).2.trans ((consume_fields _ _ _).2.trans
        ((consume_fields _ _ _).2.trans t1.2)))
  split at h
  · rw [Prod.mk.injEq] at h
    obtain ⟨hb, hp⟩ := h
    subst hb
    subst hp
    exact emitInv_of_false
      ((consume_fields _ _ _).1.trans ((consume_fields _ _ _).1.trans
        ((consume_fields _ _ _).1.trans ((consume_fields _ _ _).1.trans t1.1))))
      ((consume_fields _ _ _).2.trans ((consume_fields _ _ _).2.trans
        ((consume_fields _ _ _).2.trans ((consume_fields _ _ _).2.trans t1.2))))
  rw [Prod.mk.injEq] at h
  obtain ⟨hb, hp⟩ := h
  subst hb
  refine hp ▸ emitInv_append p _ _ ?_ [] ?_ ?_
  · exact (consume_fields _ _ _).1.trans ((consume_fields _ _ _).1.trans
      ((consume_fields _ _ _).1.trans ((consume_fields _ _ _).1.trans t1.1)))
  · rw [List.append_nil]
    exact (consume_fields _ _ _).2.trans ((consume_fields _ _ _).2.trans
      ((consume_fields _ _ _).2.trans ((consume_fields _ _ _).2.trans t1.2)))
  · intro hf
    show braceDelta [] + braceDelta _ = 0
    rw [show braceDelta [] = 0 from by decide, zero_add]
    apply braceDelta_of_braceFree
    refine braceFree_append (braceFree_append (braceFree_append (braceFree_append
      (braceFree_append (braceFree_append ?_ ?_) ?_) ?_) ?_) ?_) ?_
    · constructor <;> decide
    · exact braceFree_current _ p
        ((consume_fields _ _ _).1.trans ((consume_fields _ _ _).1.trans t1.1)) hf
    · constructor <;> decide
    · exact braceFree_current _ p ((consume_fields _ _ _).1.trans t1.1) hf
    · constructor <;> decide
    · exact braceFree_advance_fst p hf
    · constructor <;> decide

theorem rfc_inv (fuel : Nat) (p : Parser) :
    ∀ b p', parse_reversed_function_call fuel p = some (b, p') → EmitInv p b p' := by
  intro b p' h
  rw [parse_reversed_function_call] at h
  try dsimp only at h
  split at h
  · rw [Option.some.injEq, Prod.mk.injEq] at h
    obtain ⟨hb, hp⟩ := h
    subst hb
    subst hp
    exact emitInv_of_false (consume_fields _ _ _).1 (consume_fields _ _ _).2
  split at h
  · exact absurd h (by simp)
  rename_i p2 hscan
  have hs2 := rfc_scan_inv fuel _ _ _ hscan
  have hc1 : (consume p .LPAREN (chars ("Expected \x27(\x27 for function call"))).2.tokens =
      p.tokens ∧
      (consume p .LPAREN (chars ("Expected \x27(\x27 for function call"))).2.output =
      p.output := ⟨(consume_fields _ _ _).1, (consume_fields _ _ _).2⟩
  have t2 : p2.tokens = p.tokens ∧ p2.output = p.output :=
    ⟨hs2.1.trans hc1.1, hs2.2.1.trans hc1.2⟩
  try dsimp only at h
  split at h
  · rw [Option.some.injEq, Prod.mk.injEq] at h
    obtain ⟨hb, hp⟩ := h
    subst hb
    subst hp
    exact emitInv_of_false ((consume_fields _ _ _).1.trans t2.1)
      ((consume_fields _ _ _).2.trans t2.2)
  split at h
  · rw [Option.some.injEq, Prod.mk.injEq] at h
    obtain ⟨hb, hp⟩ := h
    subst hb
    subst hp
    exact emitInv_of_false
      ((consume_fields _ _ _).1.trans ((consume_fields _ _ _).1.trans t2.1))
      ((consume_fields _ _ _).2.trans ((consume_fields _ _ _).2.trans t2.2))
  split at h
  · rw [Option.some.injEq, Prod.mk.injEq] at h
    obtain ⟨hb, hp⟩ := h
    subst hb
    subst hp
    exact emitInv_of_false
      ((consume_fields _ _ _).1.trans ((consume_fields _ _ _).1.trans
        ((consume_fields _ _ _).1.trans t2.1)))
      ((consume_fields _ _ _).2.trans ((consume_fields _ _ _).2.trans
        ((consume_fields _ _ _).2.trans t2.2)))
  rw [Option.some.injEq, Prod.mk.injEq] at h
  obtain ⟨hb, hp⟩ := h
  subst hb
  refine hp ▸ emitInv_append p _ _ ?_ [] ?_ ?_
  · exact (consume_fields _ _ _).1.trans ((consume_fields _ _ _).1.trans
      ((consume_fields _ _ _).1.trans t2.1))
  · rw [List.append_nil]
    exact (consume_fields _ _ _).2.trans ((consume_fields _ _ _).2.trans
      ((consume_fields _ _ _).2.trans t2.2))
  · intro hf
    show braceDelta [] + braceDelta _ = 0
    rw [show braceDelta [] = 0 from by decide, zero_add]
    apply braceDelta_of_braceFree
    refine braceFree_append (braceFree_append (braceFree_append (braceFree_append
      ?_ ?_) ?_) ?_) ?_
    · constructor <;> decide
    · exact braceFree_current _ p ((consume_fields _ _ _).1.trans t2.1) hf
    · constructor <;> decide
    · exact argsJoin_braceFree p2 p2.pos (lexFree_transport t2.1 hf) _ _ []
        braceFree_nil
    · constructor <;> decide

-- template: the for-loop case of the family invariant, as a standalone lemma
-- taking the statement-loop invariant at the same fuel as a hypothesis
theorem for_inv_template (fuel : Nat)
    (ihL : ∀ p b p', stmtLoop fuel p = some (b, p') → EmitInv p b p') :
    ∀ p b p', parse_for_loop (fuel + 1) p = some (b, p') → EmitInv p b p' := by
  intro p b p' h
  rw [parse_for_loop] at h
  try dsimp only at h
  split at h
  · rw [Option.some.injEq, Prod.mk.injEq] at h
    obtain ⟨hb, hp⟩ := h
    subst hb
    subst hp
    exact emitInv_of_false (consume_fields _ _ _).1 (consume_fields _ _ _).2
  split at h
  · exact absurd h (by simp)
  rename_i cond p1 hslurp
  have hsl := slurp_inv fuel .RPAREN _ _ _ _ hslurp
  have tp1 : p1.tokens = p.tokens := hsl.1.trans (consume_fields _ _ _).1
  have hop1 : p1.output = p.output := hsl.2.1.trans (consume_fields _ _ _).2
  try dsimp only at h
  split at h
  · rw [Option.some.injEq, Prod.mk.injEq] at h
    obtain ⟨hb, hp⟩ := h
    subst hb
    subst hp
    exact emitInv_of_false ((consume_fields _ _ _).1.trans tp1)
      ((consume_fields _ _ _).2.trans hop1)
  split at h
  · rw [Option.some.injEq, Prod.mk.injEq] at h
    obtain ⟨hb, hp⟩ := h
    subst hb
    subst hp
    exact emitInv_of_false
      ((consume_fields _ _ _).1.trans ((consume_fields _ _ _).1.trans tp1))
      ((consume_fields _ _ _).2.trans ((consume_fields _ _ _).2.trans hop1))
  split at h
  · rw [Option.some.injEq, Prod.mk.injEq] at h
    obtain ⟨hb, hp⟩ := h
    subst hb
    subst hp
    refine emitInv_of_false_ext ?_ (chars ("    for (") ++ cond ++ chars (") \x7b\n")) ?_
    · exact (consume_fields _ _ _).1.trans ((append_output_tokens _ _).trans
        ((consume_fields _ _ _).1.trans ((consume_fields _ _ _).1.trans tp1)))
    · rw [(consume_fields _ _ _).2, append_output_output, (consume_fields _ _ _).2,
        (consume_fields _ _ _).2, hop1]
  split at h
  · exact absurd h (by simp)
  case _ p3 hloop =>
    have hbody := ihL _ _ _ hloop
    obtain ⟨hbt, sb, hbo, hbd⟩ := hbody
    rw [Option.some.injEq, Prod.mk.injEq] at h
    obtain ⟨hb, hp⟩ := h
    subst hb
    subst hp
    exact emitInv_of_false_ext (hbt.trans ((consume_fields _ _ _).1.trans
        ((append_output_tokens _ _).trans
          ((consume_fields _ _ _).1.trans ((consume_fields _ _ _).1.trans tp1)))))
      ((chars ("    for (") ++ cond ++ chars (") \x7b\n")) ++ sb)
      (by
        rw [hbo, (consume_fields _ _ _).2, append_output_output, (consume_fields _ _ _).2,
          (consume_fields _ _ _).2, hop1, List.append_assoc])
  case _ p3 hloop =>
    have hbody := ihL _ _ _ hloop
    obtain ⟨hbt, sb, hbo, hbd⟩ := hbody
    have hbt2 := hbt.trans ((consume_fields _ _ _).1.trans
      ((append_output_tokens _ _).trans
        ((consume_fields _ _ _).1.trans ((consume_fields _ _ _).1.trans tp1))))
    split at h
    · rw [Option.some.injEq, Prod.mk.injEq] at h
      obtain ⟨hb, hp⟩ := h
      subst hb
      subst hp
      exact emitInv_of_false_ext ((consume_fields _ _ _).1.trans hbt2)
        ((chars ("    for (") ++ cond ++ chars (") \x7b\n")) ++ sb)
        (by
          rw [(consume_fields _ _ _).2, hbo, (consume_fields _ _ _).2,
            append_output_output, (consume_fields _ _ _).2, (consume_fields _ _ _).2,
            hop1, List.append_assoc])
    rw [Option.some.injEq, Prod.mk.injEq] at h
    obtain ⟨hb, hp⟩ := h
    subst hb
    refine hp ▸ emitInv_append p _ _ ?_
      ((chars ("    for (") ++ cond ++ chars (") \x7b\n")) ++ sb) ?_ ?_
    · exact (consume_fields _ _ _).1.trans hbt2
    · rw [(consume_fields _ _ _).2, hbo, (consume_fields _ _ _).2, append_output_output,
        (consume_fields _ _ _).2, (consume_fields _ _ _).2, hop1, List.append_assoc]
    · intro hf
      have hcond : braceFree cond :=
        hsl.2.2.2 (lexFree_transport (consume_fields _ _ _).1 hf) braceFree_nil
      have hsb : braceDelta sb = 0 := by
        refine hbd ?_ rfl
        refine lexFree_transport ?_ hf
        exact (consume_fields _ _ _).1.trans ((append_output_tokens _ _).trans
          ((consume_fields _ _ _).1.trans ((consume_fields _ _ _).1.trans tp1)))
      rw [braceDelta_append, braceDelta_append, braceDelta_append,
        braceDelta_of_braceFree hcond, hsb]
      decide

theorem while_inv_template (fuel : Nat)
    (ihL : ∀ p b p', stmtLoop fuel p = some (b, p') → EmitInv p b p') :
    ∀ p b p', parse_while_loop (fuel + 1) p = some (b, p') → EmitInv p b p' := by
  intro p b p' h
  rw [parse_while_loop] at h
  try dsimp only at h
  split at h
  · rw [Option.some.injEq, Prod.mk.injEq] at h
    obtain ⟨hb, hp⟩ := h
    subst hb
    subst hp
    exact emitInv_of_false (consume_fields _ _ _).1 (consume_fields _ _ _).2
  split at h
  · exact absurd h (by simp)
  rename_i cond p1 hslurp
  have hsl := slurp_inv fuel .RPAREN _ _ _ _ hslurp
  have tp1 : p1.tokens = p.tokens := hsl.1.trans (consume_fields _ _ _).1
  have hop1 : p1.output = p.output := hsl.2.1.trans (consume_fields _ _ _).2
  try dsimp only at h
  split at h
  · rw [Option.some.injEq, Prod.mk.injEq] at h
    obtain ⟨hb, hp⟩ := h
    subst hb
    subst hp
    exact emitInv_of_false ((consume_fields _ _ _).1.trans tp1)
      ((consume_fields _ _ _).2.trans hop1)
  split at h
  · rw [Option.some.injEq, Prod.mk.injEq] at h
    obtain ⟨hb, hp⟩ := h
    subst hb
    subst hp
    exact emitInv_of_false
      ((consume_fields _ _ _).1.trans ((consume_fields _ _ _).1.trans tp1))
      ((consume_fields _ _ _).2.trans ((consume_fields _ _ _).2.trans hop1))
  split at h
  · rw [Option.some.injEq, Prod.mk.injEq] at h
    obtain ⟨hb, hp⟩ := h
    subst hb
    subst hp
    refine emitInv_of_false_ext ?_ (chars ("    while (") ++ cond ++ chars (") \x7b\n")) ?_
    · exact (consume_fields _ _ _).1.trans ((append_output_tokens _ _).trans
        ((consume_fields _ _ _).1.trans ((consume_fields _ _ _).1.trans tp1)))
    · rw [(consume_fields _ _ _).2, append_output_output, (consume_fields _ _ _).2,
        (consume_fields _ _ _).2, hop1]
  split at h
  · exact absurd h (by simp)
  case _ p3 hloop =>
    have hbody := ihL _ _ _ hloop
    obtain ⟨hbt, sb, hbo, hbd⟩ := hbody
    rw [Option.some.injEq, Prod.mk.injEq] at h
    obtain ⟨hb, hp⟩ := h
    subst hb
    subst hp
    exact emitInv_of_false_ext (hbt.trans ((consume_fields _ _ _).1.trans
        ((append_output_tokens _ _).trans
          ((consume_fields _ _ _).1.trans ((consume_fields _ _ _).1.trans tp1)))))
      ((chars ("    while (") ++ cond ++ chars (") \x7b\n")) ++ sb)
      (by
        rw [hbo, (consume_fields _ _ _).2, append_output_output, (consume_fields _ _ _).2,
          (consume_fields _ _ _).2, hop1, List.append_assoc])
  case _ p3 hloop =>
    have hbody := ihL _ _ _ hloop
    obtain ⟨hbt, sb, hbo, hbd⟩ := hbody
    have hbt2 := hbt.trans ((consume_fields _ _ _).1.trans
      ((append_output_tokens _ _).trans
        ((consume_fields _ _ _).1.trans ((consume_fields _ _ _).1.trans tp1))))
    split at h
    · rw [Option.some.injEq, Prod.mk.injEq] at h
      obtain ⟨hb, hp⟩ := h
      subst hb
      subst hp
      exact emitInv_of_false_ext ((consume_fields _ _ _).1.trans hbt2)
        ((chars ("    while (") ++ cond ++ chars (") \x7b\n")) ++ sb)
        (by
          rw [(consume_fields _ _ _).2, hbo, (consume_fields _ _ _).2,
            append_output_output, (consume_fields _ _ _).2, (consume_fields _ _ _).2,
            hop1, List.append_assoc])
    rw [Option.some.injEq, Prod.mk.injEq] at h
    obtain ⟨hb, hp⟩ := h
    subst hb
    refine hp ▸ emitInv_append p _ _ ?_
      ((chars ("    while (") ++ cond ++ chars (") \x7b\n")) ++ sb) ?_ ?_
    · exact (consume_fields _ _ _).1.trans hbt2
    · rw [(consume_fields _ _ _).2, hbo, (consume_fields _ _ _).2, append_output_output,
        (consume_fields _ _ _).2, (consume_fields _ _ _).2, hop1, List.append_assoc]
    · intro hf
      have hcond : braceFree cond :=
        hsl.2.2.2 (lexFree_transport (consume_fields _ _ _).1 hf) braceFree_nil
      have hsb : braceDelta sb = 0 := by
        refine hbd ?_ rfl
        refine lexFree_transport ?_ hf
        exact (consume_fields _ _ _).1.trans ((append_output_tokens _ _).trans
          ((consume_fields _ _ _).1.trans ((consume_fields _ _ _).1.trans tp1)))
      rw [braceDelta_append, braceDelta_append, braceDelta_append,
        braceDelta_of_braceFree hcond, hsb]
      decide

theorem if_inv_template (fuel : Nat)
    (ihL : ∀ p b p', stmtLoop fuel p = some (b, p') → EmitInv p b p') :
    ∀ p b p', parse_if_statement (fuel + 1) p = some (b, p') → EmitInv p b p' := by
  intro p b p' h
  rw [parse_if_statement] at h
  try dsimp only at h
  split at h
  · rw [Option.some.injEq, Prod.mk.injEq] at h
    obtain ⟨hb, hp⟩ := h
    subst hb
    subst hp
    exact emitInv_of_false (consume_fields _ _ _).1 (consume_fields _ _ _).2
  split at h
  · exact absurd h (by simp)
  rename_i cond p1 hslurp
  have hsl := slurp_inv fuel .RPAREN _ _ _ _ hslurp
  have tp1 : p1.tokens = p.tokens := hsl.1.trans (consume_fields _ _ _).1
  have hop1 : p1.output = p.output := hsl.2.1.trans (consume_fields _ _ _).2
  try dsimp only at h
  split at h
  · rw [Option.some.injEq, Prod.mk.injEq] at h
    obtain ⟨hb, hp⟩ := h
    subst hb
    subst hp
    exact emitInv_of_false ((consume_fields _ _ _).1.trans tp1)
      ((consume_fields _ _ _).2.trans hop1)
  split at h
  · rw [Option.some.injEq, Prod.mk.injEq] at h
    obtain ⟨hb, hp⟩ := h
    subst hb
    subst hp
    exact emitInv_of_false
      ((consume_fields _ _ _).1.trans ((consume_fields _ _ _).1.trans tp1))
      ((consume_fields _ _ _).2.trans ((consume_fields _ _ _).2.trans hop1))
  split at h
  · rw [Option.some.injEq, Prod.mk.injEq] at h
    obtain ⟨hb, hp⟩ := h
    subst hb
    subst hp
    refine emitInv_of_false_ext ?_ (chars ("    if (") ++ cond ++ chars (") \x7b\n")) ?_
    · exact (consume_fields _ _ _).1.trans ((append_output_tokens _ _).trans
        ((consume_fields _ _ _).1.trans ((consume_fields _ _ _).1.trans tp1)))
    · rw [(consume_fields _ _ _).2, append_output_output, (consume_fields _ _ _).2,
        (consume_fields _ _ _).2, hop1]
  split at h
  · exact absurd h (by simp)
  case _ p3 hloop =>
    have hbody := ihL _ _ _ hloop
    obtain ⟨hbt, sb, hbo, hbd⟩ := hbody
    rw [Option.some.injEq, Prod.mk.injEq] at h
    obtain ⟨hb, hp⟩ := h
    subst hb
    subst hp
    exact emitInv_of_false_ext (hbt.trans ((consume_fields _ _ _).1.trans
        ((append_output_tokens _ _).trans
          ((consume_fields _ _ _).1.trans ((consume_fields _ _ _).1.trans tp1)))))
      ((chars ("    if (") ++ cond ++ chars (") \x7b\n")) ++ sb)
      (by
        rw [hbo, (consume_fields _ _ _).2, append_output_output, (consume_fields _ _ _).2,
          (consume_fields _ _ _).2, hop1, List.append_assoc])
  case _ p3 hloop =>
    have hbody := ihL _ _ _ hloop
    obtain ⟨hbt, sb, hbo, hbd⟩ := hbody
    have hbt2 := hbt.trans ((consume_fields _ _ _).1.trans
      ((append_output_tokens _ _).trans
        ((consume_fields _ _ _).1.trans ((consume_fields _ _ _).1.trans tp1))))
    split at h
    · rw [Option.some.injEq, Prod.mk.injEq] at h
      obtain ⟨hb, hp⟩ := h
      subst hb
      subst hp
      exact emitInv_of_false_ext ((consume_fields _ _ _).1.trans hbt2)
        ((chars ("    if (") ++ cond ++ chars (") \x7b\n")) ++ sb)
        (by
          rw [(consume_fields _ _ _).2, hbo, (consume_fields _ _ _).2,
            append_output_output, (consume_fields _ _ _).2, (consume_fields _ _ _).2,
            hop1, List.append_assoc])
    -- success through the if body; p4 is the state after emitting the closing brace
    split at h
    · -- else branch taken
      try dsimp only at h
      split at h
      · rw [Option.some.injEq, Prod.mk.injEq] at h
        obtain ⟨hb, hp⟩ := h
        subst hb
        subst hp
        exact emitInv_of_false_ext
          ((consume_fields _ _ _).1.trans ((append_output_tokens _ _).trans
            ((advance_fields _).1.trans ((append_output_tokens _ _).trans
              ((consume_fields _ _ _).1.trans hbt2)))))
          ((chars ("    if (") ++ cond ++ chars (") \x7b\n")) ++ sb ++
            chars ("    \x7d\n") ++ chars ("    else \x7b\n"))
          (by
            rw [(consume_fields _ _ _).2, append_output_output, (advance_fields _).2.1,
              append_output_output, (consume_fields _ _ _).2, hbo,
              (consume_fields _ _ _).2, append_output_output, (consume_fields _ _ _).2,
              (consume_fields _ _ _).2, hop1]
            simp [List.append_assoc])
      split at h
      · exact absurd h (by simp)
      case _ p6 hloop2 =>
        have hbody2 := ihL _ _ _ hloop2
        obtain ⟨hbt3, sb2, hbo2, hbd2⟩ := hbody2
        have htokC6 := hbt3.trans ((consume_fields _ _ _).1.trans
          ((append_output_tokens _ _).trans ((advance_fields _).1.trans
            ((append_output_tokens _ _).trans ((consume_fields _ _ _).1.trans hbt2)))))
        rw [Option.some.injEq, Prod.mk.injEq] at h
        obtain ⟨hb, hp⟩ := h
        subst hb
        subst hp
        exact emitInv_of_false_ext htokC6
          ((chars ("    if (") ++ cond ++ chars (") \x7b\n")) ++ sb ++
            chars ("    \x7d\n") ++ chars ("    else \x7b\n") ++ sb2)
          (by
            rw [hbo2, (consume_fields _ _ _).2, append_output_output, (advance_fields _).2.1,
              append_output_output, (consume_fields _ _ _).2, hbo,
              (consume_fields _ _ _).2, append_output_output, (consume_fields _ _ _).2,
              (consume_fields _ _ _).2, hop1]
            simp [List.append_assoc])
      case _ p6 hloop2 =>
        have hbody2 := ihL _ _ _ hloop2
        obtain ⟨hbt3, sb2, hbo2, hbd2⟩ := hbody2
        have htokC6 := hbt3.trans ((consume_fields _ _ _).1.trans
          ((append_output_tokens _ _).trans ((advance_fields _).1.trans
            ((append_output_tokens _ _).trans ((consume_fields _ _ _).1.trans hbt2)))))
        split at h
        · rw [Option.some.injEq, Prod.mk.injEq] at h
          obtain ⟨hb, hp⟩ := h
          subst hb
          subst hp
          exact emitInv_of_false_ext ((consume_fields _ _ _).1.trans htokC6)
            ((chars ("    if (") ++ cond ++ chars (") \x7b\n")) ++ sb ++
              chars ("    \x7d\n") ++ chars ("    else \x7b\n") ++ sb2)
            (by
              rw [(consume_fields _ _ _).2, hbo2, (consume_fields _ _ _).2,
                append_output_output, (advance_fields _).2.1, append_output_output,
                (consume_fields _ _ _).2, hbo, (consume_fields _ _ _).2,
                append_output_output, (consume_fields _ _ _).2, (consume_fields _ _ _).2,
                hop1]
              simp [List.append_assoc])
        rw [Option.some.injEq, Prod.mk.injEq] at h
        obtain ⟨hb, hp⟩ := h
        subst hb
        refine hp ▸ emitInv_append p _ _ ?_
          ((chars ("    if (") ++ cond ++ chars (") \x7b\n")) ++ sb ++
            chars ("    \x7d\n") ++ chars ("    else \x7b\n") ++ sb2) ?_ ?_
        · exact (consume_fields _ _ _).1.trans htokC6
        · rw [(consume_fields _ _ _).2, hbo2, (consume_fields _ _ _).2,
            append_output_output, (advance_fields _).2.1, append_output_output,
            (consume_fields _ _ _).2, hbo, (consume_fields _ _ _).2,
            append_output_output, (consume_fields _ _ _).2, (consume_fields _ _ _).2,
            hop1]
          simp [List.append_assoc]
        · intro hf
          have hcond : braceFree cond :=
            hsl.2.2.2 (lexFree_transport (consume_fields _ _ _).1 hf) braceFree_nil
          have hsb : braceDelta sb = 0 := by
            refine hbd ?_ rfl
            refine lexFree_transport ?_ hf
            exact (consume_fields _ _ _).1.trans ((append_output_tokens _ _).trans
              ((consume_fields _ _ _).1.trans ((consume_fields _ _ _).1.trans tp1)))
          have hsb2 : braceDelta sb2 = 0 := by
            refine hbd2 ?_ rfl
            refine lexFree_transport ?_ hf
            exact (consume_fields _ _ _).1.trans ((append_output_tokens _ _).trans
              ((advance_fields _).1.trans ((append_output_tokens _ _).trans
                ((consume_fields _ _ _).1.trans hbt2))))
          rw [braceDelta_append, braceDelta_append, braceDelta_append, braceDelta_append,
            braceDelta_append, braceDelta_append, braceDelta_of_braceFree hcond, hsb, hsb2]
          decide
    · -- no else
      rw [Option.some.injEq, Prod.mk.injEq] at h
      obtain ⟨hb, hp⟩ := h
      subst hb
      refine hp ▸ emitInv_append p _ _ ?_
        ((chars ("    if (") ++ cond ++ chars (") \x7b\n")) ++ sb) ?_ ?_
      · exact (consume_fields _ _ _).1.trans hbt2
      · rw [(consume_fields _ _ _).2, hbo, (consume_fields _ _ _).2, append_output_output,
          (consume_fields _ _ _).2, (consume_fields _ _ _).2, hop1, List.append_assoc]
      · intro hf
        have hcond : braceFree cond :=
          hsl.2.2.2 (lexFree_transport (consume_fields _ _ _).1 hf) braceFree_nil
        have hsb : braceDelta sb = 0 := by
          refine hbd ?_ rfl
          refine lexFree_transport ?_ hf
          exact (consume_fields _ _ _).1.trans ((append_output_tokens _ _).trans
            ((consume_fields _ _ _).1.trans ((consume_fields _ _ _).1.trans tp1)))
        rw [braceDelta_append, braceDelta_append, braceDelta_append,
          braceDelta_of_braceFree hcond, hsb]
        decide

theorem stmt_inv_template (fuel : Nat)
    (ihF : ∀ p b p', parse_for_loop fuel p = some (b, p') → EmitInv p b p')
    (ihW : ∀ p b p', parse_while_loop fuel p = some (b, p') → EmitInv p b p')
    (ihI : ∀ p b p', parse_if_statement fuel p = some (b, p') → EmitInv p b p') :
    ∀ p b p', parse_statement (fuel + 1) p = some (b, p') → EmitInv p b p' := by
  intro p b p' h
  rw [parse_statement] at h
  try dsimp only at h
  split at h
  · rw [Option.some.injEq] at h
    exact pvd_inv p b p' (by rw [← h])
  split at h
  · split at h
    · exact ihF _ _ _ h
    split at h
    · exact ihW _ _ _ h
    split at h
    · exact ihI _ _ _ h
    split at h
    · exact rfc_inv fuel _ _ _ h
    · rw [Option.some.injEq, Prod.mk.injEq] at h
      obtain ⟨hb, hp⟩ := h
      subst hb
      subst hp
      exact emitInv_of_false (logErr_fields _ _).1 (logErr_fields _ _).2
  split at h
  · split at h
    · exact absurd h (by simp)
    rename_i line p1 hslurp
    have hsl := slurp_inv fuel .SEMICOLON _ _ _ _ hslurp
    split at h
    · rw [Option.some.injEq, Prod.mk.injEq] at h
      obtain ⟨hb, hp⟩ := h
      subst hb
      refine hp ▸ emitInv_append p _ _ ?_ [] ?_ ?_
      · exact (consume_fields _ _ _).1.trans hsl.1
      · rw [List.append_nil]
        exact (consume_fields _ _ _).2.trans hsl.2.1
      · intro hf
        show braceDelta [] + braceDelta _ = 0
        rw [show braceDelta [] = 0 from by decide, zero_add]
        apply braceDelta_of_braceFree
        have hline : braceFree line := hsl.2.2.2 hf braceFree_nil
        refine braceFree_append (braceFree_append ?_ hline) ?_
        · constructor <;> decide
        · constructor <;> decide
    · rw [Option.some.injEq, Prod.mk.injEq] at h
      obtain ⟨hb, hp⟩ := h
      subst hb
      subst hp
      exact emitInv_of_false ((consume_fields _ _ _).1.trans hsl.1)
        ((consume_fields _ _ _).2.trans hsl.2.1)
  · rw [Option.some.injEq, Prod.mk.injEq] at h
    obtain ⟨hb, hp⟩ := h
    subst hb
    subst hp
    exact emitInv_of_false (logErr_fields _ _).1 (logErr_fields _ _).2

theorem stmtLoop_inv_template (fuel : Nat)
    (ihS : ∀ p b p', parse_statement fuel p = some (b, p') → EmitInv p b p')
    (ihL : ∀ p b p', stmtLoop fuel p = some (b, p') → EmitInv p b p') :
    ∀ p b p', stmtLoop (fuel + 1) p = some (b, p') → EmitInv p b p' := by
  intro p b p' h
  rw [stmtLoop] at h
  split at h
  · rw [Option.some.injEq, Prod.mk.injEq] at h
    obtain ⟨hb, hp⟩ := h
    subst hb
    subst hp
    exact emitInv_refl p
  split at h
  · exact absurd h (by simp)
  case _ q heq =>
    rw [Option.some.injEq, Prod.mk.injEq] at h
    obtain ⟨hb, hp⟩ := h
    subst hb
    subst hp
    exact ihS _ _ _ heq
  case _ q heq =>
    exact emitInv_comp (ihS _ _ _ heq) (ihL _ _ _ h)

theorem family_inv (fuel : Nat) :
    (∀ p b p', parse_statement fuel p = some (b, p') → EmitInv p b p') ∧
    (∀ p b p', parse_for_loop fuel p = some (b, p') → EmitInv p b p') ∧
    (∀ p b p', parse_while_loop fuel p = some (b, p') → EmitInv p b p') ∧
    (∀ p b p', parse_if_statement fuel p = some (b, p') → EmitInv p b p') ∧
    (∀ p b p', stmtLoop fuel p = some (b, p') → EmitInv p b p') := by
  induction fuel with
  | zero =>
    refine ⟨?_, ?_, ?_, ?_, ?_⟩
    · intro p b p' h
      rw [parse_statement] at h
      cases h
    · intro p b p' h
      rw [parse_for_loop] at h
      cases h
    · intro p b p' h
      rw [parse_while_loop] at h
      cases h
    · intro p b p' h
      rw [parse_if_statement] at h
      cases h
    · intro p b p' h
      rw [stmtLoop] at h
      cases h
  | succ fuel ih =>
    obtain ⟨ihS, ihF, ihW, ihI, ihL⟩ := ih
    exact ⟨stmt_inv_template fuel ihF ihW ihI, for_inv_template fuel ihL,
      while_inv_template fuel ihL, if_inv_template fuel ihL,
      stmtLoop_inv_template fuel ihS ihL⟩

theorem paramLoop_inv (fuel : Nat) :
    ∀ p args b args' p', paramLoop fuel p args = some (b, args', p') →
      p'.tokens = p.tokens ∧ p'.output = p.output ∧
      (LexFree p → braceFree args → b = true → braceFree args') := by
  induction fuel with
  | zero =>
    intro p args b args' p' h
    rw [paramLoop] at h
    cases h
  | succ fuel ih =>
    intro p args b args' p' h
    rw [paramLoop] at h
    try dsimp only at h
    split at h
    · rw [Option.some.injEq, Prod.mk.injEq] at h
      obtain ⟨hb, h2⟩ := h
      rw [Prod.mk.injEq] at h2
      obtain ⟨ha, hp⟩ := h2
      subst hb
      subst ha
      subst hp
      exact ⟨rfl, rfl, fun _ hb _ => hb⟩
    split at h
    · rw [Option.some.injEq, Prod.mk.injEq] at h
      obtain ⟨hb, h2⟩ := h
      rw [Prod.mk.injEq] at h2
      obtain ⟨ha, hp⟩ := h2
      subst hb
      subst hp
      exact ⟨(consume_fields _ _ _).1, (consume_fields _ _ _).2,
        fun _ _ hbt => by cases hbt⟩
    split at h
    · rw [Option.some.injEq, Prod.mk.injEq] at h
      obtain ⟨hb, h2⟩ := h
      rw [Prod.mk.injEq] at h2
      obtain ⟨ha, hp⟩ := h2
      subst hb
      subst hp
      exact ⟨(consume_fields _ _ _).1.trans (consume_fields _ _ _).1,
        (consume_fields _ _ _).2.trans (consume_fields _ _ _).2,
        fun _ _ hbt => by cases hbt⟩
    split at h
    · -- comma: recurse after advance
      have hrec := ih _ _ _ _ _ h
      refine ⟨hrec.1.trans ((advance_fields _).1.trans
        ((consume_fields _ _ _).1.trans (consume_fields _ _ _).1)), ?_, ?_⟩
      · exact hrec.2.1.trans ((advance_fields _).2.1.trans
          ((consume_fields _ _ _).2.trans (consume_fields _ _ _).2))
      · intro hf hargs hbt
        refine hrec.2.2 ?_ ?_ hbt
        · refine lexFree_transport ?_ hf
          exact (advance_fields _).1.trans
            ((consume_fields _ _ _).1.trans (consume_fields _ _ _).1)
        · refine braceFree_append (braceFree_append (braceFree_append ?_ ?_) ?_) ?_
          · refine braceFree_append hargs ?_
            split
            · exact braceFree_nil
            · constructor <;> decide
          · refine braceFree_current _ p ?_ hf
            exact (consume_fields _ _ _).1
          · constructor <;> decide
          · exact braceFree_current _ p rfl hf
    split at h
    · rw [Option.some.injEq, Prod.mk.injEq] at h
      obtain ⟨hb, h2⟩ := h
      rw [Prod.mk.injEq] at h2
      obtain ⟨ha, hp⟩ := h2
      subst hb
      subst hp
      refine ⟨(logErr_fields _ _).1.trans
        ((consume_fields _ _ _).1.trans (consume_fields _ _ _).1), ?_,
        fun _ _ hbt => by cases hbt⟩
      exact (logErr_fields _ _).2.trans
        ((consume_fields _ _ _).2.trans (consume_fields _ _ _).2)
    · -- loop back at closing paren
      have hrec := ih _ _ _ _ _ h
      refine ⟨hrec.1.trans ((consume_fields _ _ _).1.trans (consume_fields _ _ _).1),
        ?_, ?_⟩
      · exact hrec.2.1.trans ((consume_fields _ _ _).2.trans (consume_fields _ _ _).2)
      · intro hf hargs hbt
        refine hrec.2.2 ?_ ?_ hbt
        · refine lexFree_transport ?_ hf
          exact (consume_fields _ _ _).1.trans (consume_fields _ _ _).1
        · refine braceFree_append (braceFree_append (braceFree_append ?_ ?_) ?_) ?_
          · refine braceFree_append hargs ?_
            split
            · exact braceFree_nil
            · constructor <;> decide
          · refine braceFree_current _ p ?_ hf
            exact (consume_fields _ _ _).1
          · constructor <;> decide
          · exact braceFree_current _ p rfl hf

theorem emitInv_false_ext2 {p q : Parser} {s : List Char} (ht : q.tokens = p.tokens)
    (ho : q.output = p.output ++ s) : EmitInv p false q :=
  ⟨ht, s, ho, fun _ hb => by cases hb⟩

theorem emitInv_append2 (p X : Parser) (s : List Char) {s0 : List Char}
    (htok : X.tokens = p.tokens) (hout : X.output = p.output ++ s0)
    (hdelta : LexFree p → braceDelta s0 + braceDelta s = 0) :
    EmitInv p true (append_output X s) :=
  emitInv_append p X s htok s0 hout hdelta

theorem fdecl_inv (fuel : Nat) (p : Parser) (b : Bool) (p' : Parser)
    (h : parse_function_declaration fuel p = some (b, p')) : EmitInv p b p' := by
  rw [parse_function_declaration] at h
  try dsimp only at h
  split at h
  · rw [Option.some.injEq, Prod.mk.injEq] at h
    obtain ⟨hb, hp⟩ := h
    subst hb
    subst hp
    exact emitInv_of_false (consume_fields _ _ _).1 (consume_fields _ _ _).2
  split at h
  · cases h
  · rename_i x p1 hm
    rw [Option.some.injEq, Prod.mk.injEq] at h
    obtain ⟨hb, hp⟩ := h
    subst hb
    subst hp
    have hpl := paramLoop_inv fuel _ _ _ _ _ hm
    exact emitInv_of_false (hpl.1.trans (consume_fields _ _ _).1)
      (hpl.2.1.trans (consume_fields _ _ _).2)
  rename_i args p1 hm
  have hpl := paramLoop_inv fuel _ _ _ _ _ hm
  have ht1 : p1.tokens = p.tokens := hpl.1.trans (consume_fields _ _ _).1
  have ho1 : p1.output = p.output := hpl.2.1.trans (consume_fields _ _ _).2
  split at h
  · rw [Option.some.injEq, Prod.mk.injEq] at h
    obtain ⟨hb, hp⟩ := h
    subst hb
    subst hp
    exact emitInv_of_false ((consume_fields _ _ _).1.trans ht1)
      ((consume_fields _ _ _).2.trans ho1)
  split at h
  · rw [Option.some.injEq, Prod.mk.injEq] at h
    obtain ⟨hb, hp⟩ := h
    subst hb
    subst hp
    exact emitInv_of_false
      ((consume_fields _ _ _).1.trans ((consume_fields _ _ _).1.trans ht1))
      ((consume_fields _ _ _).2.trans ((consume_fields _ _ _).2.trans ho1))
  split at h
  · rw [Option.some.injEq, Prod.mk.injEq] at h
    obtain ⟨hb, hp⟩ := h
    subst hb
    subst hp
    exact emitInv_of_false
      ((consume_fields _ _ _).1.trans ((consume_fields _ _ _).1.trans
        ((consume_fields _ _ _).1.trans ht1)))
      ((consume_fields _ _ _).2.trans ((consume_fields _ _ _).2.trans
        ((consume_fields _ _ _).2.trans ho1)))
  split at h
  · rw [Option.some.injEq, Prod.mk.injEq] at h
    obtain ⟨hb, hp⟩ := h
    subst hb
    subst hp
    apply emitInv_false_ext2
    · exact (consume_fields _ _ _).1.trans ((append_output_tokens _ _).trans
        ((consume_fields _ _ _).1.trans ((consume_fields _ _ _).1.trans
          ((consume_fields _ _ _).1.trans ht1))))
    · rw [(consume_fields _ _ _).2, append_output_output, (consume_fields _ _ _).2,
        (consume_fields _ _ _).2, (consume_fields _ _ _).2, ho1]
  split at h
  · cases h
  · rename_i p3 hst
    rw [Option.some.injEq, Prod.mk.injEq] at h
    obtain ⟨hb, hp⟩ := h
    subst hb
    subst hp
    have hsi := (family_inv fuel).2.2.2.2 _ _ _ hst
    obtain ⟨hst1, s, hso, _⟩ := hsi
    apply emitInv_false_ext2
    · exact hst1.trans ((consume_fields _ _ _).1.trans ((append_output_tokens _ _).trans
        ((consume_fields _ _ _).1.trans ((consume_fields _ _ _).1.trans
          ((consume_fields _ _ _).1.trans ht1)))))
    · rw [hso, (consume_fields _ _ _).2, append_output_output, (consume_fields _ _ _).2,
        (consume_fields _ _ _).2, (consume_fields _ _ _).2, ho1, List.append_assoc]
  rename_i p3 hst
  have hsi := (family_inv fuel).2.2.2.2 _ _ _ hst
  obtain ⟨hst1, s, hso, hsd⟩ := hsi
  have htc : p3.tokens = p.tokens :=
    hst1.trans ((consume_fields _ _ _).1.trans ((append_output_tokens _ _).trans
      ((consume_fields _ _ _).1.trans ((consume_fields _ _ _).1.trans
        ((consume_fields _ _ _).1.trans ht1)))))
  split at h
  · rw [Option.some.injEq, Prod.mk.injEq] at h
    obtain ⟨hb, hp⟩ := h
    subst hb
    subst hp
    apply emitInv_false_ext2
    · exact (consume_fields _ _ _).1.trans htc
    · rw [(consume_fields _ _ _).2, hso, (consume_fields _ _ _).2, append_output_output,
        (consume_fields _ _ _).2, (consume_fields _ _ _).2, (consume_fields _ _ _).2,
        ho1, List.append_assoc]
  rw [Option.some.injEq, Prod.mk.injEq] at h
  obtain ⟨hb, hp⟩ := h
  subst hb
  subst hp
  apply emitInv_append2
  · exact (consume_fields _ _ _).1.trans htc
  · rw [(consume_fields _ _ _).2, hso, (consume_fields _ _ _).2, append_output_output,
      (consume_fields _ _ _).2, (consume_fields _ _ _).2, (consume_fields _ _ _).2,
      ho1, List.append_assoc]
  · intro hf
    have ht2 : (consume p .LPAREN
        (chars ("Expected \x27(\x27 before function arguments"))).2.tokens = p.tokens :=
      (consume_fields _ _ _).1
    have hargs : braceFree args :=
      hpl.2.2 (lexFree_transport ht2 hf) braceFree_nil rfl
    have hret : braceFree (current_token (consume (consume p1 .RPAREN
        (chars ("Expected \x27)\x27 after function arguments"))).2 .IDENTIFIER
          (chars ("Expected function name"))).2).lexeme := by
      refine braceFree_current _ p ?_ hf
      exact (consume_fields _ _ _).1.trans ((consume_fields _ _ _).1.trans ht1)
    have hname : braceFree (current_token (consume p1 .RPAREN
        (chars ("Expected \x27)\x27 after function arguments"))).2).lexeme := by
      refine braceFree_current _ p ?_ hf
      exact (consume_fields _ _ _).1.trans ht1
    have hsd0 : braceDelta s = 0 := by
      refine hsd ?_ rfl
      refine lexFree_transport ?_ hf
      exact (consume_fields _ _ _).1.trans ((append_output_tokens _ _).trans
        ((consume_fields _ _ _).1.trans ((consume_fields _ _ _).1.trans
          ((consume_fields _ _ _).1.trans ht1))))
    simp only [braceDelta_append, braceDelta_of_braceFree hret,
      braceDelta_of_braceFree hname, braceDelta_of_braceFree hargs, hsd0]
    decide

theorem parseLoop_inv (fuel : Nat) :
    ∀ p q, parseLoop fuel p = some (some q) →
      q.tokens = p.tokens ∧ ∃ s, q.output = p.output ++ s ∧
        (LexFree p → braceDelta s = 0) := by
  induction fuel with
  | zero =>
    intro p q h
    rw [parseLoop] at h
    cases h
  | succ fuel ih =>
    intro p q h
    rw [parseLoop] at h
    try dsimp only at h
    split at h
    · rw [Option.some.injEq, Option.some.injEq] at h
      subst h
      exact ⟨rfl, [], by simp, fun _ => by decide⟩
    split at h
    · obtain ⟨ht, s, ho, hd⟩ := ih _ _ h
      refine ⟨ht.trans ((advance_fields _).1.trans (append_output_tokens _ _)),
        (current_token p).lexeme ++ chars ("\n") ++ s, ?_, ?_⟩
      · rw [ho, (advance_fields _).2.1, append_output_output, List.append_assoc]
      · intro hf
        have hlf : LexFree (advance (append_output p
            ((current_token p).lexeme ++ chars ("\n")))).2 :=
          lexFree_transport ((advance_fields _).1.trans (append_output_tokens _ _)) hf
        rw [braceDelta_append, braceDelta_append,
          braceDelta_of_braceFree (braceFree_current p p rfl hf), hd hlf]
        decide
    split at h
    · split at h
      · cases h
      · rw [Option.some.injEq] at h
        cases h
      · rename_i p1 hfd
        obtain ⟨ht1, s1, ho1, hd1⟩ := fdecl_inv fuel p true p1 hfd
        obtain ⟨ht2, s2, ho2, hd2⟩ := ih _ _ h
        refine ⟨ht2.trans ht1, s1 ++ s2, ?_, ?_⟩
        · rw [ho2, ho1, List.append_assoc]
        · intro hf
          rw [braceDelta_append, hd1 hf rfl, hd2 (lexFree_transport ht1 hf)]
          decide
    · rw [Option.some.injEq] at h
      cases h

/-- Claim C5 (amended): the claim as stated is false — a passthrough
statement can slurp an LBRACE lexeme into the output, unbalancing it (see the
counterexample).  Amended: when every token lexeme is brace-free, a
successful top-level parse produces output with equal counts of `\x7b` and
`\x7d`. -/
theorem parse_brace_balance (fuel : Nat) (ts : List Token) (out : List Char)
    (hf : ∀ t ∈ ts, braceFree t.lexeme)
    (h : parse fuel ts = some (some out)) :
    out.count '\x7b' = out.count '\x7d' := by
  rw [parse] at h
  split at h
  · cases h
  · rw [Option.some.injEq] at h
    cases h
  · rename_i q hq
    rw [Option.some.injEq, Option.some.injEq] at h
    subst h
    obtain ⟨_, s, ho, hd⟩ := parseLoop_inv fuel _ _ hq
    have hs : braceDelta s = 0 := hd hf
    have hout : q.output = s := by
      rw [ho]
      rfl
    rw [hout]
    rw [braceDelta] at hs
    omega

theorem parse_brace_balance_witness :
    (chars ("int main() \x7b\n\x7d\n\n")).count '\x7b' =
      (chars ("int main() \x7b\n\x7d\n\n")).count '\x7d' :=
  parse_brace_balance 50
    [⟨.LPAREN, chars ("(")⟩, ⟨.RPAREN, chars (")")⟩,
     ⟨.IDENTIFIER, chars ("main")⟩, ⟨.KEYWORD, chars ("int")⟩,
     ⟨.LBRACE, []⟩, ⟨.RBRACE, []⟩, eofToken]
    (chars ("int main() \x7b\n\x7d\n\n")) (by decide) (by decide)

theorem parse_brace_balance_cex :
    parse 50
      [⟨.LPAREN, chars ("(")⟩, ⟨.RPAREN, chars (")")⟩,
       ⟨.IDENTIFIER, chars ("main")⟩, ⟨.KEYWORD, chars ("int")⟩,
       ⟨.LBRACE, chars ("\x7b")⟩, ⟨.IDENTIFIER, chars ("x")⟩,
       ⟨.LBRACE, chars ("\x7b")⟩, ⟨.SEMICOLON, chars (";")⟩,
       ⟨.RBRACE, chars ("\x7d")⟩, eofToken] =
      some (some (chars ("int main() \x7b\n    x \x7b;\n\x7d\n\n"))) ∧
    ¬((chars ("int main() \x7b\n    x \x7b;\n\x7d\n\n")).count '\x7b' =
      (chars ("int main() \x7b\n    x \x7b;\n\x7d\n\n")).count '\x7d') := by
  constructor
  · decide
  · decide

theorem tokAt_append (A B : List Token) (k : Nat) (h : A.length ≤ k) :
    tokAt (A ++ B) k = tokAt B (k - A.length) := by
  rw [tokAt, tokAt, List.getD_eq_getElem?_getD, List.getD_eq_getElem?_getD,
    List.getElem?_append_right h]

theorem paramLoop_run (rp : List Char) (rest : List Token) :
    ∀ (ps : List (List Char × List Char)) (fuel : Nat) (p : Parser) (args : List Char)
      (b : Bool) (res : List Char) (q : Parser),
      p.tokens.drop p.pos = paramToks ps ++ ⟨.RPAREN, rp⟩ :: rest →
      paramLoop fuel p args = some (b, res, q) →
      b = true ∧
      res = args ++ (if ps = [] then [] else
        (if args = [] then [] else chars (", ")) ++ joinParams ps) ∧
      q = { p with pos := p.pos + (paramToks ps).length } := by
  intro ps
  induction ps with
  | nil =>
    intro fuel p args b res q hs h
    simp only [paramToks, List.nil_append] at hs
    cases fuel with
    | zero =>
      rw [paramLoop] at h
      cases h
    | succ fuel =>
      have hcur : current_token p = ⟨.RPAREN, rp⟩ := by
        rw [current_token, show p.pos = p.pos + 0 from rfl, tokAt_shape p _ hs 0]
        rfl
      have hm1 : (matchTok p .RPAREN || matchTok p .EOF) = true := by
        simp only [matchTok, hcur]
        rfl
      rw [paramLoop, hm1, if_pos rfl] at h
      rw [Option.some.injEq, Prod.mk.injEq] at h
      obtain ⟨hb, h2⟩ := h
      rw [Prod.mk.injEq] at h2
      obtain ⟨ha, hq⟩ := h2
      refine ⟨hb.symm, ?_, ?_⟩
      · rw [← ha]
        simp
      · rw [← hq]
        simp [paramToks]
  | cons hd tl ih =>
    obtain ⟨n, t⟩ := hd
    cases tl with
    | nil =>
      intro fuel p args b res q hs h
      simp only [paramToks, List.cons_append, List.nil_append] at hs
      cases fuel with
      | zero =>
        rw [paramLoop] at h
        cases h
      | succ fuel =>
        have hlen : p.pos + (3 + rest.length) = p.tokens.length := by
          have h0 := shape_len p _ hs (by simp)
          simp only [List.length_cons] at h0
          omega
        have e0 : current_token p = ⟨.IDENTIFIER, n⟩ := by
          rw [current_token, show p.pos = p.pos + 0 from rfl, tokAt_shape p _ hs 0]
          rfl
        have e1 : tokAt p.tokens (p.pos + 1) = ⟨.KEYWORD, t⟩ := by
          rw [tokAt_shape p _ hs 1]
          rfl
        have e2 : tokAt p.tokens (p.pos + 2) = ⟨.RPAREN, rp⟩ := by
          rw [tokAt_shape p _ hs 2]
          rfl
        have e1c : current_token { p with pos := p.pos + 1 } = (⟨.KEYWORD, t⟩ : Token) := by
          show tokAt p.tokens (p.pos + 1) = _
          rw [e1]
        have hm1 : (matchTok p .RPAREN || matchTok p .EOF) = false := by
          simp only [matchTok, e0]
          rfl
        have hfneg : ¬(false = true) := by decide
        have hfneg2 : ¬((!true) = true) := by decide
        rw [paramLoop, hm1, if_neg hfneg] at h
        dsimp only at h
        rw [consume_succ p .IDENTIFIER _ (by rw [e0]) (by omega)] at h
        dsimp only at h
        rw [if_neg hfneg2] at h
        rw [consume_succ _ .KEYWORD _ (by
            show (tokAt p.tokens (p.pos + 1)).type = _
            rw [e1]) (by dsimp only; omega)] at h
        dsimp only at h
        rw [if_neg hfneg2] at h
        have hmc : matchTok { p with pos := p.pos + 1 + 1 } .COMMA = false := by
          simp only [matchTok]
          show ((tokAt p.tokens (p.pos + 1 + 1)).type == _) = false
          rw [show p.pos + 1 + 1 = p.pos + 2 from rfl, e2]
          rfl
        have hmr : matchTok { p with pos := p.pos + 1 + 1 } .RPAREN = true := by
          simp only [matchTok]
          show ((tokAt p.tokens (p.pos + 1 + 1)).type == _) = true
          rw [show p.pos + 1 + 1 = p.pos + 2 from rfl, e2]
          rfl
        rw [hmc, if_neg hfneg] at h
        rw [hmr] at h
        rw [if_neg hfneg2] at h
        rw [e0, e1c] at h
        dsimp only at h
        have hshape2 : ({ p with pos := p.pos + 1 + 1 } : Parser).tokens.drop
            ({ p with pos := p.pos + 1 + 1 } : Parser).pos =
            paramToks [] ++ (⟨.RPAREN, rp⟩ : Token) :: rest := by
          show p.tokens.drop (p.pos + 1 + 1) = _
          have h0 := congrArg (List.drop 2) hs
          rw [List.drop_drop] at h0
          rw [show p.pos + 1 + 1 = p.pos + 2 from rfl, h0]
          simp [paramToks]
        obtain ⟨hb, ha, hq⟩ := ih fuel _ _ b res q hshape2 h
        refine ⟨hb, ?_, ?_⟩
        · rw [ha]
          simp [joinParams, List.append_assoc]
        · rw [hq]
          simp [paramToks, Parser.mk.injEq]
    | cons hd2 tl2 =>
      intro fuel p args b res q hs h
      simp only [paramToks, List.cons_append] at hs
      cases fuel with
      | zero =>
        rw [paramLoop] at h
        cases h
      | succ fuel =>
        have hptl : 2 ≤ (paramToks (hd2 :: tl2)).length := by
          obtain ⟨n2, t2⟩ := hd2
          cases tl2 <;> simp [paramToks]
        have hlen : p.pos + (3 + ((paramToks (hd2 :: tl2)).length + (1 + rest.length))) =
            p.tokens.length := by
          have h0 := shape_len p _ hs (by simp)
          simp only [List.length_cons, List.length_append] at h0
          omega
        have e0 : current_token p = ⟨.IDENTIFIER, n⟩ := by
          rw [current_token, show p.pos = p.pos + 0 from rfl, tokAt_shape p _ hs 0]
          rfl
        have e1 : tokAt p.tokens (p.pos + 1) = ⟨.KEYWORD, t⟩ := by
          rw [tokAt_shape p _ hs 1]
          rfl
        have e2 : tokAt p.tokens (p.pos + 2) = ⟨.COMMA, chars (",")⟩ := by
          rw [tokAt_shape p _ hs 2]
          rfl
        have e1c : current_token { p with pos := p.pos + 1 } = (⟨.KEYWORD, t⟩ : Token) := by
          show tokAt p.tokens (p.pos + 1) = _
          rw [e1]
        have hm1 : (matchTok p .RPAREN || matchTok p .EOF) = false := by
          simp only [matchTok, e0]
          rfl
        have hfneg : ¬(false = true) := by decide
        have hfneg2 : ¬((!true) = true) := by decide
        rw [paramLoop, hm1, if_neg hfneg] at h
        dsimp only at h
        rw [consume_succ p .IDENTIFIER _ (by rw [e0]) (by omega)] at h
        dsimp only at h
        rw [if_neg hfneg2] at h
        rw [consume_succ _ .KEYWORD _ (by
            show (tokAt p.tokens (p.pos + 1)).type = _
            rw [e1]) (by dsimp only; omega)] at h
        dsimp only at h
        rw [if_neg hfneg2] at h
        have hmc : matchTok { p with pos := p.pos + 1 + 1 } .COMMA = true := by
          simp only [matchTok]
          show ((tokAt p.tokens (p.pos + 1 + 1)).type == _) = true
          rw [show p.pos + 1 + 1 = p.pos + 2 from rfl, e2]
          rfl
        rw [hmc, if_pos rfl] at h
        rw [advance_eq _ (by dsimp only; omega)] at h
        dsimp only at h
        rw [e0, e1c] at h
        dsimp only at h
        have hshape2 : ({ p with pos := p.pos + 1 + 1 + 1 } : Parser).tokens.drop
            ({ p with pos := p.pos + 1 + 1 + 1 } : Parser).pos =
            paramToks (hd2 :: tl2) ++ (⟨.RPAREN, rp⟩ : Token) :: rest := by
          show p.tokens.drop (p.pos + 1 + 1 + 1) = _
          have h0 := congrArg (List.drop 3) hs
          rw [List.drop_drop] at h0
          rw [show p.pos + 1 + 1 + 1 = p.pos + 3 from rfl, h0]
          simp
        obtain ⟨hb, ha, hq⟩ := ih fuel _ _ b res q hshape2 h
        refine ⟨hb, ?_, ?_⟩
        · rw [ha]
          have hsp : chars (" ") ≠ [] := by decide
          have hj : joinParams ((n, t) :: hd2 :: tl2) =
              t ++ chars (" ") ++ n ++ chars (", ") ++ joinParams (hd2 :: tl2) := rfl
          simp [hj, hsp, List.append_assoc]
        · rw [hq]
          have hl3 : (paramToks ((n, t) :: hd2 :: tl2)).length =
              3 + (paramToks (hd2 :: tl2)).length := by
            simp [paramToks]
            omega
          simp [hl3, Parser.mk.injEq]
          omega

/-- Claim C1: a reversed function definition `( <params> ) <name> <ret> \x7b
<body> \x7d` that parses successfully emits `<ret> <name>(<params reversed,
comma-joined>) \x7b`, newline, the translated body, then the closing brace
and a blank line; an empty parameter list emits `()`, and a body whose first
token is already the closing brace contributes no body text (so the output is
`\x7b\n\x7d\n\n`). -/
theorem function_declaration_translation (fuel : Nat) (p p' : Parser)
    (lp rp name ret lb : List Char) (ps : List (List Char × List Char)) (rest : List Token)
    (hs : p.tokens.drop p.pos = ⟨.LPAREN, lp⟩ :: (paramToks ps ++ ⟨.RPAREN, rp⟩ ::
      ⟨.IDENTIFIER, name⟩ :: ⟨.KEYWORD, ret⟩ :: ⟨.LBRACE, lb⟩ :: rest))
    (hrest0 : rest ≠ [])
    (h : parse_function_declaration fuel p = some (true, p')) :
    ∃ bodyOut,
      p'.output = p.output ++ ret ++ chars (" ") ++ name ++ chars ("(") ++
        joinParams ps ++ chars (") \x7b\n") ++ bodyOut ++ chars ("\x7d\n\n") ∧
      p'.tokens = p.tokens ∧
      (∀ rb rest2, rest = ⟨.RBRACE, rb⟩ :: rest2 → bodyOut = []) := by
  have hfneg2 : ¬((!true) = true) := by decide
  have hrl : 0 < rest.length := List.length_pos.mpr hrest0
  have hlen0 := shape_len p _ hs (by simp)
  simp only [List.length_cons, List.length_append] at hlen0
  have hsTail : p.tokens.drop (p.pos + (1 + (paramToks ps).length)) =
      (⟨.RPAREN, rp⟩ : Token) :: ⟨.IDENTIFIER, name⟩ :: ⟨.KEYWORD, ret⟩ ::
        ⟨.LBRACE, lb⟩ :: rest := by
    have h0 := congrArg (List.drop (1 + (paramToks ps).length)) hs
    rw [List.drop_drop] at h0
    rw [h0, show 1 + (paramToks ps).length = (paramToks ps).length + 1 from by omega,
      List.drop_succ_cons, List.drop_left]
  have e0 : current_token p = ⟨.LPAREN, lp⟩ := by
    rw [current_token, show p.pos = p.pos + 0 from rfl, tokAt_shape p _ hs 0]
    rfl
  have eR : tokAt p.tokens (p.pos + 1 + (paramToks ps).length) = (⟨.RPAREN, rp⟩ : Token) := by
    rw [show p.pos + 1 + (paramToks ps).length =
      p.pos + (1 + (paramToks ps).length) + 0 from by omega, ← tokAt_drop, hsTail]
    rfl
  have eI : tokAt p.tokens (p.pos + 1 + (paramToks ps).length + 1) =
      (⟨.IDENTIFIER, name⟩ : Token) := by
    rw [show p.pos + 1 + (paramToks ps).length + 1 =
      p.pos + (1 + (paramToks ps).length) + 1 from by omega, ← tokAt_drop, hsTail]
    rfl
  have eK : tokAt p.tokens (p.pos + 1 + (paramToks ps).length + 1 + 1) =
      (⟨.KEYWORD, ret⟩ : Token) := by
    rw [show p.pos + 1 + (paramToks ps).length + 1 + 1 =
      p.pos + (1 + (paramToks ps).length) + 2 from by omega, ← tokAt_drop, hsTail]
    rfl
  have eB : tokAt p.tokens (p.pos + 1 + (paramToks ps).length + 1 + 1 + 1) =
      (⟨.LBRACE, lb⟩ : Token) := by
    rw [show p.pos + 1 + (paramToks ps).length + 1 + 1 + 1 =
      p.pos + (1 + (paramToks ps).length) + 3 from by omega, ← tokAt_drop, hsTail]
    rfl
  rw [parse_function_declaration] at h
  dsimp only at h
  rw [consume_succ p .LPAREN _ (by rw [e0]) (by omega)] at h
  dsimp only at h
  rw [if_neg hfneg2] at h
  split at h
  · cases h
  · rename_i x p1 hm
    rw [Option.some.injEq, Prod.mk.injEq] at h
    obtain ⟨hb, h2⟩ := h
    cases hb
  rename_i args p1 hm
  obtain ⟨-, ha, hq⟩ := paramLoop_run rp (⟨.IDENTIFIER, name⟩ :: ⟨.KEYWORD, ret⟩ ::
      ⟨.LBRACE, lb⟩ :: rest) ps fuel _ [] _ args p1 (by
        show p.tokens.drop (p.pos + 1) = _
        have h0 := congrArg (List.drop 1) hs
        rw [List.drop_drop] at h0
        rw [h0]
        simp) hm
  have hargs : args = joinParams ps := by
    rw [ha]
    cases ps with
    | nil => simp [joinParams]
    | cons a b => simp
  have hq2 : p1 = { p with pos := p.pos + 1 + (paramToks ps).length } := by rw [hq]
  rw [hargs, hq2] at h
  rw [consume_succ _ .RPAREN _ (by
      show (tokAt p.tokens (p.pos + 1 + (paramToks ps).length)).type = _
      rw [eR]) (by dsimp only; omega)] at h
  dsimp only at h
  rw [if_neg hfneg2] at h
  rw [consume_succ _ .IDENTIFIER _ (by
      show (tokAt p.tokens (p.pos + 1 + (paramToks ps).length + 1)).type = _
      rw [eI]) (by dsimp only; omega)] at h
  dsimp only at h
  rw [if_neg hfneg2] at h
  rw [consume_succ _ .KEYWORD _ (by
      show (tokAt p.tokens (p.pos + 1 + (paramToks ps).length + 1 + 1)).type = _
      rw [eK]) (by dsimp only; omega)] at h
  dsimp only at h
  rw [if_neg hfneg2] at h
  have eIc : current_token { p with pos := p.pos + 1 + (paramToks ps).length + 1 } =
      (⟨.IDENTIFIER, name⟩ : Token) := by
    show tokAt p.tokens (p.pos + 1 + (paramToks ps).length + 1) = _
    rw [eI]
  have eKc : current_token { p with pos := p.pos + 1 + (paramToks ps).length + 1 + 1 } =
      (⟨.KEYWORD, ret⟩ : Token) := by
    show tokAt p.tokens (p.pos + 1 + (paramToks ps).length + 1 + 1) = _
    rw [eK]
  rw [eIc, eKc] at h
  dsimp only at h
  rw [consume_succ _ .LBRACE _ (by
      show (tokAt p.tokens (p.pos + 1 + (paramToks ps).length + 1 + 1 + 1)).type = _
      rw [eB]) (by dsimp only [append_output]; omega)] at h
  dsimp only [append_output] at h
  rw [if_neg hfneg2] at h
  split at h
  · cases h
  · rename_i p3 hst
    rw [Option.some.injEq, Prod.mk.injEq] at h
    obtain ⟨hb, h2⟩ := h
    cases hb
  rename_i p3 hst
  obtain ⟨hst1, s, hso, hsd⟩ := (family_inv fuel).2.2.2.2 _ _ _ hst
  split at h
  · rw [Option.some.injEq, Prod.mk.injEq] at h
    obtain ⟨hb, h2⟩ := h
    cases hb
  rename_i hc6
  rw [Option.some.injEq, Prod.mk.injEq] at h
  obtain ⟨h1, hp⟩ := h
  refine ⟨s, ?_, ?_, ?_⟩
  · rw [← hp]
    dsimp only
    rw [(consume_fields _ _ _).2, hso]
    dsimp only
    simp [List.append_assoc]
  · rw [← hp]
    dsimp only
    rw [(consume_fields _ _ _).1, hst1]
  · intro rb rest2 hrest
    have eHpos : tokAt p.tokens (p.pos + 1 + (paramToks ps).length + 1 + 1 + 1 + 1) =
        (⟨.RBRACE, rb⟩ : Token) := by
      rw [show p.pos + 1 + (paramToks ps).length + 1 + 1 + 1 + 1 =
        p.pos + (1 + (paramToks ps).length) + 4 from by omega, ← tokAt_drop, hsTail, hrest]
      rfl
    cases fuel with
    | zero =>
      rw [stmtLoop] at hst
      cases hst
    | succ f =>
      rw [stmtLoop] at hst
      split at hst
      · rw [Option.some.injEq, Prod.mk.injEq] at hst
        obtain ⟨hb3, hp3⟩ := hst
        rw [← hp3] at hso
        simpa using congrArg List.length hso
      · rename_i hcond
        simp only [matchTok, current_token] at hcond
        rw [eHpos] at hcond
        exact absurd rfl hcond

theorem function_declaration_translation_witness :
    ∃ bodyOut,
      (⟨[⟨.LPAREN, chars ("(")⟩, ⟨.RPAREN, chars (")")⟩,
        ⟨.IDENTIFIER, chars ("main")⟩, ⟨.KEYWORD, chars ("int")⟩,
        ⟨.LBRACE, chars ("\x7b")⟩, ⟨.RBRACE, chars ("\x7d")⟩, eofToken],
        6, chars ("int main() \x7b\n\x7d\n\n"), []⟩ : Parser).output =
      (⟨[⟨.LPAREN, chars ("(")⟩, ⟨.RPAREN, chars (")")⟩,
        ⟨.IDENTIFIER, chars ("main")⟩, ⟨.KEYWORD, chars ("int")⟩,
        ⟨.LBRACE, chars ("\x7b")⟩, ⟨.RBRACE, chars ("\x7d")⟩, eofToken],
        0, [], []⟩ : Parser).output ++ chars ("int") ++ chars (" ") ++
        chars ("main") ++ chars ("(") ++ joinParams [] ++ chars (") \x7b\n") ++
        bodyOut ++ chars ("\x7d\n\n") ∧
      (⟨[⟨.LPAREN, chars ("(")⟩, ⟨.RPAREN, chars (")")⟩,
        ⟨.IDENTIFIER, chars ("main")⟩, ⟨.KEYWORD, chars ("int")⟩,
        ⟨.LBRACE, chars ("\x7b")⟩, ⟨.RBRACE, chars ("\x7d")⟩, eofToken],
        6, chars ("int main() \x7b\n\x7d\n\n"), []⟩ : Parser).tokens =
      (⟨[⟨.LPAREN, chars ("(")⟩, ⟨.RPAREN, chars (")")⟩,
        ⟨.IDENTIFIER, chars ("main")⟩, ⟨.KEYWORD, chars ("int")⟩,
        ⟨.LBRACE, chars ("\x7b")⟩, ⟨.RBRACE, chars ("\x7d")⟩, eofToken],
        0, [], []⟩ : Parser).tokens ∧
      (∀ rb rest2, ([⟨.RBRACE, chars ("\x7d")⟩, eofToken] : List Token) =
        ⟨.RBRACE, rb⟩ :: rest2 → bodyOut = []) :=
  function_declaration_translation 20
    ⟨[⟨.LPAREN, chars ("(")⟩, ⟨.RPAREN, chars (")")⟩,
      ⟨.IDENTIFIER, chars ("main")⟩, ⟨.KEYWORD, chars ("int")⟩,
      ⟨.LBRACE, chars ("\x7b")⟩, ⟨.RBRACE, chars ("\x7d")⟩, eofToken], 0, [], []⟩
    ⟨[⟨.LPAREN, chars ("(")⟩, ⟨.RPAREN, chars (")")⟩,
      ⟨.IDENTIFIER, chars ("main")⟩, ⟨.KEYWORD, chars ("int")⟩,
      ⟨.LBRACE, chars ("\x7b")⟩, ⟨.RBRACE, chars ("\x7d")⟩, eofToken],
      6, chars ("int main() \x7b\n\x7d\n\n"), []⟩
    (chars ("(")) (chars (")")) (chars ("main")) (chars ("int")) (chars ("\x7b"))
    [] [⟨.RBRACE, chars ("\x7d")⟩, eofToken]
    (by decide) (by decide) (by decide)

theorem rfc_scan_zero (fuel : Nat) (P : Parser) (p2 : Parser)
    (h : rfc_scan fuel P 0 = some p2) : p2 = P := by
  cases fuel with
  | zero =>
    rw [rfc_scan] at h
    cases h
  | succ fuel =>
    rw [rfc_scan] at h
    rw [if_neg (by simp)] at h
    rw [Option.some.injEq] at h
    exact h.symm

theorem rfc_run (rp : List Char) :
    ∀ (run : List Token) (rest2 : List Token) (fuel : Nat) (P : Parser)
      (level : Nat) (p2 : Parser),
      P.tokens.drop P.pos = run ++ ⟨.RPAREN, rp⟩ :: rest2 →
      (∀ t ∈ run, t.type ≠ .EOF) →
      (∀ n, (0:Int) < (level : Int) + ((run.take n).map parenDelta).sum) →
      (level : Int) + (run.map parenDelta).sum = 1 →
      rfc_scan fuel P level = some p2 →
      p2 = { P with pos := P.pos + run.length } := by
  intro run
  induction run with
  | nil =>
    intro rest2 fuel P level p2 hs hne hpre hsum h
    simp only [List.nil_append] at hs
    have hl1 : level = 1 := by
      simp only [List.map_nil, List.sum_nil, add_zero] at hsum
      exact_mod_cast hsum
    subst hl1
    cases fuel with
    | zero =>
      rw [rfc_scan] at h
      cases h
    | succ fuel =>
      have hcur : current_token P = ⟨.RPAREN, rp⟩ := by
        rw [current_token, show P.pos = P.pos + 0 from rfl, tokAt_shape P _ hs 0]
        rfl
      have hme : matchTok P .EOF = false := by
        simp only [matchTok, hcur]
        rfl
      have hml : matchTok P .LPAREN = false := by
        simp only [matchTok, hcur]
        rfl
      have hmr : matchTok P .RPAREN = true := by
        simp only [matchTok, hcur]
        rfl
      rw [rfc_scan] at h
      rw [if_pos (show 0 < 1 ∧ ¬(matchTok P .EOF = true) from
        ⟨by omega, by rw [hme]; decide⟩)] at h
      dsimp only at h
      rw [hml] at h
      rw [if_neg (show ¬(false = true) by decide)] at h
      rw [hmr] at h
      rw [if_pos (show true = true from rfl)] at h
      rw [if_neg (show ¬(0 < 1 - 1) by decide)] at h
      have := rfc_scan_zero fuel P p2 h
      rw [this]
      rfl
  | cons t run' ih =>
    intro rest2 fuel P level p2 hs hne hpre hsum h
    cases fuel with
    | zero =>
      rw [rfc_scan] at h
      cases h
    | succ fuel =>
      have hlen : P.pos + ((t :: run').length + (1 + rest2.length)) = P.tokens.length := by
        have h0 := shape_len P _ hs (by simp)
        simp only [List.length_cons, List.length_append] at h0
        simp only [List.length_cons]
        omega
      have hlr : 0 < level := by
        have := hpre 0
        simp only [List.take_zero, List.map_nil, List.sum_nil, add_zero] at this
        exact_mod_cast this
      have hcur : current_token P = t := by
        rw [current_token, show P.pos = P.pos + 0 from rfl, tokAt_shape P _ hs 0]
        rfl
      have hmty : ∀ ty, matchTok P ty = (t.type == ty) := by
        intro ty
        simp [matchTok, hcur]
      have hme : matchTok P .EOF = false := by
        rw [hmty]
        rw [beq_eq_false_iff_ne]
        exact hne t (by simp)
      have hpre1 := hpre 1
      simp only [List.take_succ_cons, List.take_zero, List.map_cons, List.map_nil,
        List.sum_cons, List.sum_nil, add_zero] at hpre1
      have hshape2 : ((advance P).2).tokens.drop ((advance P).2).pos =
          run' ++ (⟨.RPAREN, rp⟩ : Token) :: rest2 := by
        rw [advance_eq P (by simp only [List.length_cons] at hlen; omega)]
        show P.tokens.drop (P.pos + 1) = _
        have h0 := congrArg (List.drop 1) hs
        rw [List.drop_drop] at h0
        rw [h0]
        simp
      have hne' : ∀ u ∈ run', u.type ≠ .EOF := fun u hu => hne u (by simp [hu])
      rw [rfc_scan] at h
      rw [if_pos (show 0 < level ∧ ¬(matchTok P .EOF = true) from
        ⟨hlr, by rw [hme]; decide⟩)] at h
      dsimp only at h
      rw [hmty .LPAREN, hmty .RPAREN] at h
      by_cases hL : t.type = .LPAREN
      · rw [if_pos (show (t.type == TokenType.LPAREN) = true from by rw [hL]; rfl)] at h
        rw [if_pos (show 0 < level + 1 by omega)] at h
        have hdt : parenDelta t = 1 := by simp [parenDelta, hL]
        have hres := ih rest2 fuel _ (level + 1) p2 hshape2 hne'
          (by
            intro n
            have := hpre (n + 1)
            simp only [List.take_succ_cons, List.map_cons, List.sum_cons, hdt] at this
            push_cast
            omega)
          (by
            simp only [List.map_cons, List.sum_cons, hdt] at hsum
            push_cast
            omega) h
        rw [hres, advance_eq P (by simp only [List.length_cons] at hlen; omega)]
        simp only [List.length_cons, Parser.mk.injEq, true_and, and_true]
        omega
      · rw [if_neg (show ¬((t.type == TokenType.LPAREN) = true) from
          by rw [beq_iff_eq]; exact hL)] at h
        by_cases hR : t.type = .RPAREN
        · rw [if_pos (show (t.type == TokenType.RPAREN) = true from by rw [hR]; rfl)] at h
          have hdt : parenDelta t = -1 := by simp [parenDelta, hR, hL]
          rw [hdt] at hpre1
          have hl2 : 2 ≤ level := by omega
          rw [if_pos (show 0 < level - 1 by omega)] at h
          have hres := ih rest2 fuel _ (level - 1) p2 hshape2 hne'
            (by
              intro n
              have := hpre (n + 1)
              simp only [List.take_succ_cons, List.map_cons, List.sum_cons, hdt] at this
              have hc : ((level - 1 : Nat) : Int) = (level : Int) - 1 := by omega
              omega)
            (by
              simp only [List.map_cons, List.sum_cons, hdt] at hsum
              have hc : ((level - 1 : Nat) : Int) = (level : Int) - 1 := by omega
              omega) h
          rw [hres, advance_eq P (by simp only [List.length_cons] at hlen; omega)]
          simp only [List.length_cons, Parser.mk.injEq, true_and, and_true]
          omega
        · rw [if_neg (show ¬((t.type == TokenType.RPAREN) = true) from
            by rw [beq_iff_eq]; exact hR)] at h
          have hdt : parenDelta t = 0 := by simp [parenDelta, hR, hL]
          rw [if_pos (show 0 < level from hlr)] at h
          have hres := ih rest2 fuel _ level p2 hshape2 hne'
            (by
              intro n
              have := hpre (n + 1)
              simp only [List.take_succ_cons, List.map_cons, List.sum_cons, hdt] at this
              omega)
            (by
              simp only [List.map_cons, List.sum_cons, hdt] at hsum
              omega) h
          rw [hres, advance_eq P (by simp only [List.length_cons] at hlen; omega)]
          simp only [List.length_cons, Parser.mk.injEq, true_and, and_true]
          omega

theorem argsJoin_run (rp : List Char) :
    ∀ (run : List Token) (rest2 : List Token) (P2 : Parser) (i : Nat) (acc : List Char),
      P2.pos = i + run.length →
      P2.tokens.drop i = run ++ ⟨.RPAREN, rp⟩ :: rest2 →
      argsJoinAux P2 P2.pos run.length i acc = acc ++ spacedJoinSpec run := by
  intro run
  induction run with
  | nil =>
    intro rest2 P2 i acc hp hs
    simp only [List.length_nil]
    rw [argsJoinAux]
    simp [spacedJoinSpec]
  | cons t run' ih =>
    intro rest2 P2 i acc hp hs
    have h0 := congrArg List.length hs
    rw [List.length_drop] at h0
    simp only [List.length_cons, List.length_append] at h0
    simp only [List.length_cons] at hp
    have hlen : P2.tokens.length = i + run'.length + 2 + rest2.length := by omega
    have e0 : tokAt P2.tokens i = t := by
      rw [show i = i + 0 from rfl, ← tokAt_drop, hs]
      rfl
    have hs1 : P2.tokens.drop (i + 1) = run' ++ (⟨.RPAREN, rp⟩ : Token) :: rest2 := by
      have h1 := congrArg (List.drop 1) hs
      rw [List.drop_drop] at h1
      rw [h1]
      simp
    simp only [List.length_cons]
    rw [argsJoinAux]
    rw [if_pos (show i < P2.pos by omega)]
    rw [e0]
    cases run' with
    | nil =>
      have hp1 : P2.pos = i + 1 := by simpa using hp
      rw [if_neg (show ¬(i < P2.pos - 1 ∧
          (peek_at P2 ((i : Int) - (P2.pos : Int) + 1)).type ≠ .COMMA) from
        fun hc => by omega)]
      simp only [List.length_nil]
      rw [argsJoinAux]
      simp [spacedJoinSpec]
    | cons u r' =>
      have epk : peek_at P2 ((i : Int) - (P2.pos : Int) + 1) = u := by
        rw [peek_at]
        rw [if_neg (show ¬((P2.tokens.length : Int) ≤ (P2.pos : Int) +
            ((i : Int) - (P2.pos : Int) + 1)) by
          simp only [List.length_cons] at hp ⊢
          omega)]
        rw [show (((P2.pos : Nat) : Int) + ((i : Int) - (P2.pos : Int) + 1)).toNat =
          i + 1 from by omega]
        rw [show i + 1 = i + 1 + 0 from rfl, ← tokAt_drop, hs1]
        rfl
      by_cases hu : u.type = .COMMA
      · rw [if_neg (show ¬(i < P2.pos - 1 ∧
            (peek_at P2 ((i : Int) - (P2.pos : Int) + 1)).type ≠ .COMMA) from by
          rw [epk]
          simp [hu])]
        rw [ih rest2 P2 (i + 1) (acc ++ t.lexeme ++ [])
          (by simp only [List.length_cons] at hp ⊢; omega) hs1]
        have hj : spacedJoinSpec (t :: u :: r') =
            t.lexeme ++ (if u.type = .COMMA then [] else chars (" ")) ++
              spacedJoinSpec (u :: r') := rfl
        rw [hj, if_pos hu]
        simp [List.append_assoc]
      · rw [if_pos (show i < P2.pos - 1 ∧
            (peek_at P2 ((i : Int) - (P2.pos : Int) + 1)).type ≠ .COMMA from
          ⟨by simp only [List.length_cons] at hp; omega, by rw [epk]; exact hu⟩)]
        rw [ih rest2 P2 (i + 1) (acc ++ t.lexeme ++ chars (" "))
          (by simp only [List.length_cons] at hp ⊢; omega) hs1]
        have hj : spacedJoinSpec (t :: u :: r') =
            t.lexeme ++ (if u.type = .COMMA then [] else chars (" ")) ++
              spacedJoinSpec (u :: r') := rfl
        rw [hj, if_neg hu]
        simp [List.append_assoc]

/-- Claim C3: a reversed call statement `( <arg-run> ) <name> ;` whose
argument run is parenthesis-balanced and EOF-free and whose parse succeeds
emits `    <name>(<join>);` and a newline, where `<join>` is the lexemes of
the run joined by single spaces except that no space is emitted immediately
before a COMMA token. -/
theorem reversed_call_translation (fuel : Nat) (p p' : Parser)
    (lp rp name sc : List Char) (run rest : List Token)
    (hs : p.tokens.drop p.pos = ⟨.LPAREN, lp⟩ :: (run ++ ⟨.RPAREN, rp⟩ ::
      ⟨.IDENTIFIER, name⟩ :: ⟨.SEMICOLON, sc⟩ :: rest))
    (hbal : balancedRun run)
    (hne : ∀ t ∈ run, t.type ≠ .EOF)
    (h : parse_reversed_function_call fuel p = some (true, p')) :
    p'.output = p.output ++ chars ("    ") ++ name ++ chars ("(") ++
      spacedJoinSpec run ++ chars (");\n") ∧
    p'.tokens = p.tokens := by
  have hfneg2 : ¬((!true) = true) := by decide
  have hlen0 := shape_len p _ hs (by simp)
  simp only [List.length_cons, List.length_append] at hlen0
  have e0 : current_token p = ⟨.LPAREN, lp⟩ := by
    rw [current_token, show p.pos = p.pos + 0 from rfl, tokAt_shape p _ hs 0]
    rfl
  have hsTail : p.tokens.drop (p.pos + (1 + run.length)) =
      (⟨.RPAREN, rp⟩ : Token) :: ⟨.IDENTIFIER, name⟩ :: ⟨.SEMICOLON, sc⟩ :: rest := by
    have h0 := congrArg (List.drop (1 + run.length)) hs
    rw [List.drop_drop] at h0
    rw [h0, show 1 + run.length = run.length + 1 from by omega,
      List.drop_succ_cons, List.drop_left]
  have eR : tokAt p.tokens (p.pos + 1 + run.length) = (⟨.RPAREN, rp⟩ : Token) := by
    rw [show p.pos + 1 + run.length = p.pos + (1 + run.length) + 0 from by omega,
      ← tokAt_drop, hsTail]
    rfl
  have eI : tokAt p.tokens (p.pos + 1 + run.length + 1) =
      (⟨.IDENTIFIER, name⟩ : Token) := by
    rw [show p.pos + 1 + run.length + 1 = p.pos + (1 + run.length) + 1 from by omega,
      ← tokAt_drop, hsTail]
    rfl
  have eS : tokAt p.tokens (p.pos + 1 + run.length + 1 + 1) =
      (⟨.SEMICOLON, sc⟩ : Token) := by
    rw [show p.pos + 1 + run.length + 1 + 1 = p.pos + (1 + run.length) + 2 from by omega,
      ← tokAt_drop, hsTail]
    rfl
  rw [parse_reversed_function_call] at h
  dsimp only at h
  rw [consume_succ p .LPAREN _ (by rw [e0]) (by omega)] at h
  dsimp only at h
  rw [if_neg hfneg2] at h
  split at h
  · cases h
  rename_i p2 hscan
  have hp2 : p2 = { p with pos := p.pos + 1 + run.length } := by
    have hres := rfc_run rp run (⟨.IDENTIFIER, name⟩ :: ⟨.SEMICOLON, sc⟩ :: rest)
      fuel _ 1 p2
      (by
        show p.tokens.drop (p.pos + 1) = _
        have h1 := congrArg (List.drop 1) hs
        rw [List.drop_drop] at h1
        rw [h1]
        simp) hne
      (by
        intro n
        have := hbal.1 n
        omega)
      (by
        have := hbal.2
        omega) hscan
    rw [hres]
  have hpp : p2.pos = p.pos + 1 + run.length := by rw [hp2]
  have hpt : p2.tokens = p.tokens := by rw [hp2]
  have hpo : p2.output = p.output := by rw [hp2]
  rw [show p2.pos - (p.pos + 1) = run.length from by omega] at h
  rw [argsJoin_run rp run (⟨.IDENTIFIER, name⟩ :: ⟨.SEMICOLON, sc⟩ :: rest) p2
    (p.pos + 1) [] (by omega)
    (by
      rw [hpt]
      have h1 := congrArg (List.drop 1) hs
      rw [List.drop_drop] at h1
      rw [h1]
      simp)] at h
  rw [consume_succ _ .RPAREN _ (by
      show (tokAt p2.tokens p2.pos).type = _
      rw [hpt, hpp, eR]) (by rw [hpp, hpt]; omega)] at h
  dsimp only at h
  rw [if_neg hfneg2] at h
  rw [consume_succ _ .IDENTIFIER _ (by
      show (tokAt p2.tokens (p2.pos + 1)).type = _
      rw [hpt, hpp, eI]) (by dsimp only; rw [hpt, hpp]; omega)] at h
  dsimp only at h
  rw [if_neg hfneg2] at h
  have eIc : current_token { p2 with pos := p2.pos + 1 } =
      (⟨.IDENTIFIER, name⟩ : Token) := by
    show tokAt p2.tokens (p2.pos + 1) = _
    rw [hpt, hpp, eI]
  rw [eIc] at h
  dsimp only at h
  obtain ⟨q, hq, hqt, hqo, hql⟩ := consume_succ_any { p2 with pos := p2.pos + 1 + 1 }
    .SEMICOLON (chars ("Expected \x27;\x27 after function call")) (by
      show (tokAt p2.tokens (p2.pos + 1 + 1)).type = _
      rw [hpt, hpp, eS])
  rw [hq] at h
  dsimp only at h
  rw [if_neg hfneg2] at h
  rw [Option.some.injEq, Prod.mk.injEq] at h
  obtain ⟨h1, hp3⟩ := h
  constructor
  · rw [← hp3, append_output_output, hqo]
    dsimp only
    rw [hpo]
    simp [List.append_assoc]
  · rw [← hp3, append_output_tokens, hqt]
    dsimp only
    exact hpt

theorem balancedRun_of_bounded (run : List Token)
    (h1 : ∀ n < run.length, 0 ≤ ((run.take n).map parenDelta).sum)
    (h2 : (run.map parenDelta).sum = 0) : balancedRun run := by
  refine ⟨?_, h2⟩
  intro n
  by_cases hn : n < run.length
  · exact h1 n hn
  · rw [List.take_of_length_le (by omega)]
    rw [h2]

theorem reversed_call_translation_witness :
    (⟨[⟨.LPAREN, chars ("(")⟩, ⟨.LPAREN, chars ("(")⟩, ⟨.NUMBER, chars ("1")⟩,
      ⟨.RPAREN, chars (")")⟩, ⟨.IDENTIFIER, chars ("h")⟩, ⟨.COMMA, chars (",")⟩,
      ⟨.NUMBER, chars ("2")⟩, ⟨.RPAREN, chars (")")⟩, ⟨.IDENTIFIER, chars ("f")⟩,
      ⟨.SEMICOLON, chars (";")⟩, eofToken],
      10, chars ("    f(( 1 ) h, 2);\n"), []⟩ : Parser).output =
      (⟨[⟨.LPAREN, chars ("(")⟩, ⟨.LPAREN, chars ("(")⟩, ⟨.NUMBER, chars ("1")⟩,
        ⟨.RPAREN, chars (")")⟩, ⟨.IDENTIFIER, chars ("h")⟩, ⟨.COMMA, chars (",")⟩,
        ⟨.NUMBER, chars ("2")⟩, ⟨.RPAREN, chars (")")⟩, ⟨.IDENTIFIER, chars ("f")⟩,
        ⟨.SEMICOLON, chars (";")⟩, eofToken], 0, [], []⟩ : Parser).output ++
        chars ("    ") ++ chars ("f") ++ chars ("(") ++
        spacedJoinSpec [⟨.LPAREN, chars ("(")⟩, ⟨.NUMBER, chars ("1")⟩,
          ⟨.RPAREN, chars (")")⟩, ⟨.IDENTIFIER, chars ("h")⟩, ⟨.COMMA, chars (",")⟩,
          ⟨.NUMBER, chars ("2")⟩] ++ chars (");\n") ∧
    (⟨[⟨.LPAREN, chars ("(")⟩, ⟨.LPAREN, chars ("(")⟩, ⟨.NUMBER, chars ("1")⟩,
      ⟨.RPAREN, chars (")")⟩, ⟨.IDENTIFIER, chars ("h")⟩, ⟨.COMMA, chars (",")⟩,
      ⟨.NUMBER, chars ("2")⟩, ⟨.RPAREN, chars (")")⟩, ⟨.IDENTIFIER, chars ("f")⟩,
      ⟨.SEMICOLON, chars (";")⟩, eofToken],
      10, chars ("    f(( 1 ) h, 2);\n"), []⟩ : Parser).tokens =
      (⟨[⟨.LPAREN, chars ("(")⟩, ⟨.LPAREN, chars ("(")⟩, ⟨.NUMBER, chars ("1")⟩,
        ⟨.RPAREN, chars (")")⟩, ⟨.IDENTIFIER, chars ("h")⟩, ⟨.COMMA, chars (",")⟩,
        ⟨.NUMBER, chars ("2")⟩, ⟨.RPAREN, chars (")")⟩, ⟨.IDENTIFIER, chars ("f")⟩,
        ⟨.SEMICOLON, chars (";")⟩, eofToken], 0, [], []⟩ : Parser).tokens :=
  reversed_call_translation 30
    ⟨[⟨.LPAREN, chars ("(")⟩, ⟨.LPAREN, chars ("(")⟩, ⟨.NUMBER, chars ("1")⟩,
      ⟨.RPAREN, chars (")")⟩, ⟨.IDENTIFIER, chars ("h")⟩, ⟨.COMMA, chars (",")⟩,
      ⟨.NUMBER, chars ("2")⟩, ⟨.RPAREN, chars (")")⟩, ⟨.IDENTIFIER, chars ("f")⟩,
      ⟨.SEMICOLON, chars (";")⟩, eofToken], 0, [], []⟩
    ⟨[⟨.LPAREN, chars ("(")⟩, ⟨.LPAREN, chars ("(")⟩, ⟨.NUMBER, chars ("1")⟩,
      ⟨.RPAREN, chars (")")⟩, ⟨.IDENTIFIER, chars ("h")⟩, ⟨.COMMA, chars (",")⟩,
      ⟨.NUMBER, chars ("2")⟩, ⟨.RPAREN, chars (")")⟩, ⟨.IDENTIFIER, chars ("f")⟩,
      ⟨.SEMICOLON, chars (";")⟩, eofToken],
      10, chars ("    f(( 1 ) h, 2);\n"), []⟩
    (chars ("(")) (chars (")")) (chars ("f")) (chars (";"))
    [⟨.LPAREN, chars ("(")⟩, ⟨.NUMBER, chars ("1")⟩, ⟨.RPAREN, chars (")")⟩,
      ⟨.IDENTIFIER, chars ("h")⟩, ⟨.COMMA, chars (",")⟩, ⟨.NUMBER, chars ("2")⟩]
    [eofToken]
    (by decide)
    (balancedRun_of_bounded _ (by decide) (by decide))
    (by decide) (by decide)

theorem goodList_cons {t : Token} {l : List Token} (h : goodMid t) (hl : GoodList l) :
    GoodList (t :: l) := by
  cases l with
  | nil => exact Or.inl h
  | cons u r => exact ⟨h, hl⟩

theorem scan_good (cs : List Char) : GoodList (scanTokens cs).1 := by
  induction cs using scanTokens.induct
  case case1 =>
    rw [scanTokens_nil]
    trivial
  case case2 c cs h =>
    rw [beq_iff_eq] at h
    subst h
    rw [scanTokens_nul]
    trivial
  case case3 c cs h1 h2 ih =>
    rw [scanTokens_ws c cs h2]
    exact ih
  case case4 c cs h1 h2 h3 ih =>
    rw [Bool.and_eq_true] at h3
    obtain ⟨hd, hh⟩ := h3
    rw [beq_iff_eq] at hd hh
    subst hd
    rw [scanTokens_comment cs hh]
    exact ih
  case case5 c cs h1 h2 h3 h4 ih =>
    rw [beq_iff_eq] at h4
    subst h4
    rw [scanTokens_pre]
    exact goodList_cons True.intro ih
  case case6 c cs h1 h2 h3 h4 h5 ih =>
    rw [Bool.and_eq_true] at h5
    obtain ⟨hd, hh⟩ := h5
    simp only [Bool.or_eq_true, beq_iff_eq, or_assoc] at hd
    rw [beq_iff_eq] at hh
    rw [scanTokens_op2 c cs hd hh]
    refine goodList_cons ?_ ih
    rcases hd with rfl | rfl | rfl | rfl
    · exact Or.inr (Or.inl (by decide))
    · exact Or.inr (Or.inl (by decide))
    · exact Or.inr (Or.inl (by decide))
    · exact Or.inr (Or.inl (by decide))
  case case7 c cs h1 h2 h3 h4 h5 h6 ih =>
    have hne : cs.head? ≠ some '=' := by
      intro heq
      exact h5 (by simp [heq, h6])
    simp only [Bool.or_eq_true, beq_iff_eq] at h6
    rcases h6 with rfl | rfl
    · rw [scanTokens_gt cs hne]
      exact goodList_cons (Or.inr (Or.inl (by decide))) ih
    · rw [scanTokens_lt cs hne]
      exact goodList_cons (Or.inr (Or.inl (by decide))) ih
  case case8 c cs h1 h2 h3 h4 h5 h6 h7 ih =>
    rw [beq_iff_eq] at h7
    subst h7
    rw [scanTokens_lparen]
    refine goodList_cons ?_ ih
    show ['('] = chars ("(")
    decide
  case case9 c cs h1 h2 h3 h4 h5 h6 h7 h8 ih =>
    rw [beq_iff_eq] at h8
    subst h8
    rw [scanTokens_rparen]
    refine goodList_cons ?_ ih
    show [')'] = chars (")")
    decide
  case case10 c cs h1 h2 h3 h4 h5 h6 h7 h8 h9 ih =>
    rw [beq_iff_eq] at h9
    subst h9
    rw [scanTokens_lbrace]
    refine goodList_cons ?_ ih
    show ['\x7b'] = chars ("\x7b")
    decide
  case case11 c cs h1 h2 h3 h4 h5 h6 h7 h8 h9 h10 ih =>
    rw [beq_iff_eq] at h10
    subst h10
    rw [scanTokens_rbrace]
    refine goodList_cons ?_ ih
    show ['\x7d'] = chars ("\x7d")
    decide
  case case12 c cs h1 h2 h3 h4 h5 h6 h7 h8 h9 h10 h11 ih =>
    rw [beq_iff_eq] at h11
    subst h11
    have hne : cs.head? ≠ some '=' := by
      intro heq
      exact h5 (by simp [heq])
    rw [scanTokens_eq cs hne]
    refine goodList_cons ?_ ih
    show ['='] = chars ("=")
    decide
  case case13 c cs h1 h2 h3 h4 h5 h6 h7 h8 h9 h10 h11 h12 ih =>
    rw [beq_iff_eq] at h12
    subst h12
    rw [scanTokens_semi]
    refine goodList_cons ?_ ih
    show [';'] = chars (";")
    decide
  case case14 c cs h1 h2 h3 h4 h5 h6 h7 h8 h9 h10 h11 h12 h13 ih =>
    rw [beq_iff_eq] at h13
    subst h13
    rw [scanTokens_comma]
    refine goodList_cons ?_ ih
    show [','] = chars (",")
    decide
  case case15 c cs h1 h2 h3 h4 h5 h6 h7 h8 h9 h10 h11 h12 h13 h14 ih =>
    rw [scanTokens_num c cs h14]
    refine goodList_cons ⟨by simp, ?_⟩ ih
    intro d hd
    rcases List.mem_cons.mp hd with rfl | hm
    · exact h14
    · exact List.mem_takeWhile_imp hm
  case case16 c cs h1 h2 h3 h4 h5 h6 h7 h8 h9 h10 h11 h12 h13 h14 h15 ih =>
    rw [scanTokens_word c cs h15]
    refine goodList_cons ?_ ih
    by_cases hk : is_keyword (c :: cs.takeWhile wordChar) = true
    · rw [if_pos hk]
      show (c :: cs.takeWhile wordChar) ∈ keywords
      simpa [is_keyword] using hk
    · rw [if_neg hk]
      refine Or.inl ⟨⟨h15, ?_⟩, by simpa using hk⟩
      intro d hd
      exact List.mem_takeWhile_imp hd
  case case17 c cs h1 h2 h3 h4 h5 h6 h7 h8 h9 h10 h11 h12 h13 h14 h15 hq sr ih =>
    rw [beq_iff_eq] at hq
    subst hq
    rw [scanTokens_str]
    by_cases hcl : (strScan cs).val.2.2 = true
    · refine goodList_cons ?_ ih
      exact Or.inr (Or.inr ⟨(strScan cs).val.1, rfl, by rw [strScan_self, hcl]⟩)
    · have hfl : (strScan cs).val.2.2 = false := by
        simpa using hcl
      rcases strScan_rest_shape cs hfl with hre | ⟨r, hre⟩
      · rw [hre, scanTokens_nil]
        exact Or.inr ⟨rfl, (strScan cs).val.1, rfl, by rw [strScan_self, hfl]⟩
      · rw [hre, scanTokens_nul]
        exact Or.inr ⟨rfl, (strScan cs).val.1, rfl, by rw [strScan_self, hfl]⟩
  case case18 c cs h1 h2 h3 h4 h5 h6 h7 h8 h9 h10 h11 h12 h13 h14 h15 h16 ih =>
    rw [scanTokens_unknown c cs
      (unknownChar_of_neg c h1 h2 h4 h6 h7 h8 h9 h10 h11 h12 h13 h14 h15 h16)
      (by
        intro hc heq
        subst hc
        exact h3 (by simp [heq]))
      (by
        intro hc heq
        subst hc
        exact h5 (by simp [heq]))]
    exact goodList_cons ⟨c, rfl, unknownChar_of_neg c h1 h2 h4 h6 h7 h8 h9 h10 h11 h12
      h13 h14 h15 h16⟩ ih

theorem takeWhile_app (l s : List Char) (p : Char → Bool) (h : ∀ x ∈ l, p x = true) :
    (l ++ s).takeWhile p = l ++ s.takeWhile p := by
  induction l with
  | nil => simp
  | cons c r ih =>
    rw [List.cons_append, List.takeWhile_cons_of_pos (h c (by simp)), List.cons_append,
      ih (fun x hx => h x (by simp [hx]))]

theorem dropWhile_app (l s : List Char) (p : Char → Bool) (h : ∀ x ∈ l, p x = true) :
    (l ++ s).dropWhile p = s.dropWhile p := by
  induction l with
  | nil => simp
  | cons c r ih =>
    rw [List.cons_append, List.dropWhile_cons_of_pos (h c (by simp)),
      ih (fun x hx => h x (by simp [hx]))]

theorem relex_word (w : List Char) (hw : wordShaped w) (s : List Char)
    (htw : s.takeWhile wordChar = []) (hdw : s.dropWhile wordChar = s) :
    (scanTokens (w ++ s)).1 =
      (⟨if is_keyword w then .KEYWORD else .IDENTIFIER, w⟩ : Token) ::
        (scanTokens s).1 := by
  cases w with
  | nil => exact hw.elim
  | cons c r =>
    obtain ⟨hc, hr⟩ := hw
    rw [List.cons_append, scanTokens_word c (r ++ s) hc]
    rw [takeWhile_app r s wordChar hr, htw, dropWhile_app r s wordChar hr, hdw,
      List.append_nil]

theorem relex_mid (t : Token) (h : goodMid t) (hpre : t.type ≠ .PREPROCESSOR)
    (s : List Char) (hs : s = [] ∨ ∃ s2, s = ' ' :: s2) :
    ∃ lex2, (scanTokens (t.lexeme ++ s)).1 =
      (⟨t.type, lex2⟩ : Token) :: (scanTokens s).1 := by
  have hsh : ∀ c : Char, c ≠ ' ' → s.head? ≠ some c := by
    intro c hc
    rcases hs with rfl | ⟨s2, rfl⟩
    · simp
    · simp [hc.symm]
  have htw : ∀ p : Char → Bool, p ' ' = false →
      s.takeWhile p = [] ∧ s.dropWhile p = s := by
    intro q hq
    rcases hs with rfl | ⟨s2, rfl⟩
    · exact ⟨rfl, rfl⟩
    · exact ⟨List.takeWhile_cons_of_neg (by simp [hq]),
        List.dropWhile_cons_of_neg (by simp [hq])⟩
  obtain ⟨ty, lex⟩ := t
  cases ty
  case KEYWORD =>
    have hkf : wordShaped lex ∧ is_keyword lex = true := by
      have hx : lex ∈ keywords := h
      fin_cases hx <;> exact ⟨⟨by decide, by decide⟩, by decide⟩
    refine ⟨lex, ?_⟩
    rw [relex_word lex hkf.1 s (htw wordChar (by decide)).1 (htw wordChar (by decide)).2]
    rw [hkf.2, if_pos (show true = true from rfl)]
  case IDENTIFIER =>
    rcases h with ⟨hws, hnk⟩ | hop | ⟨m, hlex, hm⟩
    · refine ⟨lex, ?_⟩
      rw [relex_word lex hws s (htw wordChar (by decide)).1 (htw wordChar (by decide)).2]
      rw [hnk, if_neg (show ¬(false = true) by decide)]
    · simp only [List.mem_cons, List.mem_singleton, List.not_mem_nil, or_false] at hop
      rcases hop with rfl | rfl | rfl | rfl | rfl | rfl
      · refine ⟨['>'], ?_⟩
        rw [show chars (">") ++ s = '>' :: s from rfl,
          scanTokens_gt s (hsh '=' (by decide))]
      · refine ⟨['<'], ?_⟩
        rw [show chars ("<") ++ s = '<' :: s from rfl,
          scanTokens_lt s (hsh '=' (by decide))]
      · refine ⟨['>', '='], ?_⟩
        rw [show chars (">=") ++ s = '>' :: '=' :: s from rfl,
          scanTokens_op2 '>' ('=' :: s) (by decide) (by simp)]
        rfl
      · refine ⟨['<', '='], ?_⟩
        rw [show chars ("<=") ++ s = '<' :: '=' :: s from rfl,
          scanTokens_op2 '<' ('=' :: s) (by decide) (by simp)]
        rfl
      · refine ⟨['=', '='], ?_⟩
        rw [show chars ("==") ++ s = '=' :: '=' :: s from rfl,
          scanTokens_op2 '=' ('=' :: s) (by decide) (by simp)]
        rfl
      · refine ⟨['!', '='], ?_⟩
        rw [show chars ("!=") ++ s = '!' :: '=' :: s from rfl,
          scanTokens_op2 '!' ('=' :: s) (by decide) (by simp)]
        rfl
    · refine ⟨'"' :: m, ?_⟩
      rw [hlex, List.cons_append, scanTokens_str (m ++ s),
        strScan_append_of_closed m hm s]
  case NUMBER =>
    obtain ⟨hne, hdig⟩ := h
    cases lex with
    | nil => exact absurd rfl hne
    | cons c r =>
      refine ⟨c :: r, ?_⟩
      rw [List.cons_append, scanTokens_num c (r ++ s) (hdig c (by simp))]
      rw [takeWhile_app r s Char.isDigit (fun x hx => hdig x (by simp [hx])),
        (htw Char.isDigit (by decide)).1,
        dropWhile_app r s Char.isDigit (fun x hx => hdig x (by simp [hx])),
        (htw Char.isDigit (by decide)).2, List.append_nil]
  case LPAREN =>
    have h2 : lex = chars ("(") := h
    subst h2
    refine ⟨['('], ?_⟩
    rw [show chars ("(") ++ s = '(' :: s from rfl, scanTokens_lparen]
  case RPAREN =>
    have h2 : lex = chars (")") := h
    subst h2
    refine ⟨[')'], ?_⟩
    rw [show chars (")") ++ s = ')' :: s from rfl, scanTokens_rparen]
  case LBRACE =>
    have h2 : lex = chars ("\x7b") := h
    subst h2
    refine ⟨['\x7b'], ?_⟩
    rw [show chars ("\x7b") ++ s = '\x7b' :: s from rfl, scanTokens_lbrace]
  case RBRACE =>
    have h2 : lex = chars ("\x7d") := h
    subst h2
    refine ⟨['\x7d'], ?_⟩
    rw [show chars ("\x7d") ++ s = '\x7d' :: s from rfl, scanTokens_rbrace]
  case EQUALS =>
    have h2 : lex = chars ("=") := h
    subst h2
    refine ⟨['='], ?_⟩
    rw [show chars ("=") ++ s = '=' :: s from rfl,
      scanTokens_eq s (hsh '=' (by decide))]
  case SEMICOLON =>
    have h2 : lex = chars (";") := h
    subst h2
    refine ⟨[';'], ?_⟩
    rw [show chars (";") ++ s = ';' :: s from rfl, scanTokens_semi]
  case COMMA =>
    have h2 : lex = chars (",") := h
    subst h2
    refine ⟨[','], ?_⟩
    rw [show chars (",") ++ s = ',' :: s from rfl, scanTokens_comma]
  case PREPROCESSOR => exact absurd rfl hpre
  case EOF => exact h.elim
  case UNKNOWN =>
    obtain ⟨c, hlex, huc⟩ := h
    refine ⟨[c], ?_⟩
    rw [hlex, List.cons_append, List.nil_append,
      scanTokens_unknown c s huc (fun _ => hsh '/' (by decide))
        (fun _ => hsh '=' (by decide))]

theorem relex_last (t : Token) (h : goodLast t) (hpre : t.type ≠ .PREPROCESSOR) :
    ∃ lex2, (scanTokens t.lexeme).1 = [(⟨t.type, lex2⟩ : Token)] := by
  rcases h with hm | ⟨hid, m, hlex, hsm⟩
  · obtain ⟨lex2, he⟩ := relex_mid t hm hpre [] (Or.inl rfl)
    rw [List.append_nil] at he
    refine ⟨lex2, ?_⟩
    rw [he, scanTokens_nil]
  · obtain ⟨ty, lex⟩ := t
    dsimp only at hid hlex
    subst hid
    subst hlex
    refine ⟨'"' :: m, ?_⟩
    rw [scanTokens_str m, hsm]
    dsimp only
    rw [scanTokens_nil]

theorem relex_list : ∀ L : List Token, GoodList L →
    (∀ t ∈ L, t.type ≠ .PREPROCESSOR) →
    (scanTokens (joinLex L)).1.map Token.type = L.map Token.type := by
  intro L
  induction L with
  | nil =>
    intro hg hp
    rw [show joinLex [] = [] from rfl, scanTokens_nil]
  | cons t r ih =>
    intro hg hp
    cases r with
    | nil =>
      obtain ⟨lex2, he⟩ := relex_last t hg (hp t (by simp))
      rw [show joinLex [t] = t.lexeme from rfl, he]
      rfl
    | cons u r2 =>
      obtain ⟨hm, hrest⟩ := hg
      obtain ⟨lex2, he⟩ := relex_mid t hm (hp t (by simp)) (' ' :: joinLex (u :: r2))
        (Or.inr ⟨joinLex (u :: r2), rfl⟩)
      rw [show joinLex (t :: u :: r2) = t.lexeme ++ ' ' :: joinLex (u :: r2) from rfl]
      rw [he, scanTokens_ws ' ' (joinLex (u :: r2)) (by decide)]
      rw [List.map_cons, List.map_cons]
      rw [ih hrest (fun x hx => hp x (by simp [hx]))]

/-- Claim C4 (amended): the claim as stated is false — the EOF sentinel has
the word-shaped lexeme `EOF`, so re-lexing the joined lexemes produces an
extra IDENTIFIER token (see the counterexample on the empty buffer), and a
PREPROCESSOR token swallows the remainder of its space-joined line.  Amended:
if no PREPROCESSOR token was produced, joining the lexemes of the non-EOF
tokens with single spaces and re-lexing reproduces exactly the same sequence
of token kinds. -/
theorem lexing_idempotent_amended (cs : List Char)
    (hp : ∀ t ∈ (tokenize cs).1, t.type ≠ .PREPROCESSOR) :
    (tokenize (joinLex (((tokenize cs).1).filter
      (fun t => t.type != .EOF)))).1.map Token.type =
      (tokenize cs).1.map Token.type := by
  have h1 : (tokenize cs).1 = (scanTokens cs).1 ++ [eofToken] := rfl
  have hno := scan_no_eof cs
  have hfil : ((tokenize cs).1).filter (fun t => t.type != .EOF) =
      (scanTokens cs).1 := by
    rw [h1, List.filter_append]
    rw [List.filter_eq_self.mpr (by
      intro t ht
      simp [hno t ht])]
    rw [show List.filter (fun t => t.type != TokenType.EOF) [eofToken] = [] from
      by decide]
    rw [List.append_nil]
  rw [hfil]
  have hgood := scan_good cs
  have hpre : ∀ t ∈ (scanTokens cs).1, t.type ≠ .PREPROCESSOR := by
    intro t ht
    exact hp t (by rw [h1]; exact List.mem_append_left _ ht)
  have hrel := relex_list (scanTokens cs).1 hgood hpre
  rw [show (tokenize (joinLex (scanTokens cs).1)).1 =
    (scanTokens (joinLex (scanTokens cs).1)).1 ++ [eofToken] from rfl, h1]
  rw [List.map_append, List.map_append, hrel]

theorem lexing_idempotent_amended_witness :
    (tokenize (joinLex (((tokenize (chars ("("))).1).filter
      (fun t => t.type != .EOF)))).1.map Token.type =
      (tokenize (chars ("("))).1.map Token.type :=
  lexing_idempotent_amended (chars ("(")) (by
    intro t ht
    rw [show (tokenize (chars ("("))).1 =
        (scanTokens (chars ("("))).1 ++ [eofToken] from rfl,
      show chars ("(") = '(' :: [] from rfl, scanTokens_lparen, scanTokens_nil] at ht
    fin_cases ht <;> decide)

theorem lexing_idempotent_cex :
    ¬((tokenize (joinLex (tokenize []).1)).1.map Token.type =
      (tokenize []).1.map Token.type) := by
  have h1 : (tokenize []).1 = [eofToken] := by
    rw [show (tokenize []).1 = (scanTokens []).1 ++ [eofToken] from rfl, scanTokens_nil]
    rfl
  rw [h1]
  rw [show joinLex [eofToken] = chars ("EOF") from rfl]
  have h3 : (tokenize (chars ("EOF"))).1 =
      [⟨.IDENTIFIER, chars ("EOF")⟩, eofToken] := by
    rw [show (tokenize (chars ("EOF"))).1 =
      (scanTokens (chars ("EOF"))).1 ++ [eofToken] from rfl]
    rw [show chars ("EOF") = 'E' :: ['O', 'F'] from rfl]
    rw [scanTokens_word 'E' ['O', 'F'] (by decide)]
    rw [show List.dropWhile wordChar ['O', 'F'] = [] from by decide, scanTokens_nil]
    rw [show List.takeWhile wordChar ['O', 'F'] = ['O', 'F'] from by decide]
    rw [show (if is_keyword ('E' :: ['O', 'F']) then TokenType.KEYWORD
      else TokenType.IDENTIFIER) = TokenType.IDENTIFIER from by decide]
    rfl
  rw [h3]
  decide
